import Mathlib

/-!
# goroutine_pool: a shallow embedding of the worker store and the pool facade

The Go package keeps a `goPool` (pool.go) that owns a `capacityStore`
(worker_pool.go) of `goWorker`s (worker.go).  The embedding is state passing:

* a `goWorker` is a pointer, modelled by its address `id`;
* the part of the Go heap the package touches is a `Runtime`: the allocation
  counter of `newWorker` and the list of task channels that `stop` has closed;
* `int32` fields are `Int`s, and `atomic.AddInt32` wraps modulo `2^32`;
* run-time panics of Go (index out of range, close of a closed channel, ...)
  are the error side of `Except GoPanic`;
* a call of `getWorker` that parks on `waitCh` yields `Acquired.wait`;
* the pool is a transition system `Sys` whose steps are the bodies that run under
  `store.lock` and the compare-and-swap of `Close`; `Conc` adds the callers of a
  blocking `getWorker` and the channel `waitCh`, with the release of the lock and the
  receive on `waitCh` as separate steps.
-/

namespace goroutine_pool

/-! ## Constants (pool.go, lines 5-12) -/

/-- Constant `defaultCap`. -/
def defaultCap : Int := 1024

/-- Constant `noLimitCap`: with this capacity a worker is created per request. -/
def noLimitCap : Int := -1

/-- Constant `PoolOpen = iota`: it is the third constant of its block, so `iota` is 2. -/
def PoolOpen : Int := 2

/-- Constant `PoolClose`: the implicit repetition of `iota`, here 3. -/
def PoolClose : Int := 3

/-! ## Errors (errors.go) -/

/-- The two error values of the package. -/
inductive PoolErr where
  | arriveCapacity
  | closed
deriving DecidableEq

/-- Value `ErrorPoolArriveCapacity`: "the pool is running to many goroutine". -/
def ErrorPoolArriveCapacity : PoolErr := PoolErr.arriveCapacity

/-- Value `ErrorPoolClosed`: "the pool is closed". -/
def ErrorPoolClosed : PoolErr := PoolErr.closed

/-! ## Go run time -/

/-- Run-time panics that the code of the package can raise. -/
inductive GoPanic where
  | makesliceLenOutOfRange
  | indexOutOfRange
  | closeOfClosedChannel
  | sendOnClosedChannel
  | nilDereference
deriving DecidableEq

/-- Range of the Go type `int32`. -/
def isInt32 (x : Int) : Prop := -2147483648 ≤ x ∧ x ≤ 2147483647

instance (x : Int) : Decidable (isInt32 x) := by
  unfold isInt32; exact inferInstance

/-- Two's complement wrap-around of an integer into the range of `int32`. -/
def wrapInt32 (x : Int) : Int := (x + 2147483648) % 4294967296 - 2147483648

namespace atomic

/-- Function `atomic.AddInt32`: the new value, with Go's wrap-around. -/
def AddInt32 (v delta : Int) : Int := wrapInt32 (v + delta)

/-- Function `atomic.CompareAndSwapInt32`: whether the swap happened, and the new value. -/
def CompareAndSwapInt32 (v old new : Int) : Bool × Int :=
  if v = old then (true, new) else (false, v)

end atomic

/-- Pointer to a `goWorker`; `id` is its address, which also names its `taskCh`. -/
structure goWorker where
  id : Nat
deriving DecidableEq

/-- The heap as far as the package uses it. -/
structure Runtime where
  /-- number of `goWorker`s allocated so far; the next one gets this address -/
  nextWorker : Nat
  /-- workers whose `taskCh` has been closed, in the order of the `close` calls -/
  closedCh : List Nat
deriving DecidableEq

/-- Function `newWorker` (worker.go, 18-25): allocate a worker with an open `taskCh`
and start its goroutine. -/
def newWorker (rt : Runtime) : goWorker × Runtime :=
  (⟨rt.nextWorker⟩, { rt with nextWorker := rt.nextWorker + 1 })

/-- Method `goWorker.stop` (worker.go, 33-35): `close(w.taskCh)`, which panics on a
channel that is already closed. -/
def goWorker.stop (w : goWorker) (rt : Runtime) : Except GoPanic Runtime :=
  if w.id ∈ rt.closedCh then throw GoPanic.closeOfClosedChannel
  else pure { rt with closedCh := rt.closedCh ++ [w.id] }

/-- Method `goWorker.submitTask` (worker.go, 28-30): `w.taskCh <- t`, which panics on a
closed channel; the task itself is carried by the caller's result. -/
def goWorker.submitTask (w : goWorker) (rt : Runtime) : Except GoPanic Unit :=
  if w.id ∈ rt.closedCh then throw GoPanic.sendOnClosedChannel
  else pure ()

/-! ## capacityStore (worker_pool.go) -/

/-- Struct `capacityStore`; `pool` is passed to the methods as the pool's `state`,
`lock` serialises the bodies, and `waitCh` is unbuffered and holds no data. -/
structure capacityStore where
  cap : Int
  runningCount : Int
  isBlock : Bool
  workers : List goWorker
deriving DecidableEq

/-- What one pass of `getWorker` from the label `tryGet` ends with. -/
inductive Acquired where
  /-- a worker was returned -/
  | worker (w : goWorker)
  /-- `nil` was returned -/
  | nil
  /-- the lock was released and the caller waits on `<-store.waitCh`; when it is
  woken it jumps back to `tryGet`, that is, it runs `getWorker` again -/
  | wait
deriving DecidableEq

/-- Method `goPool.IsClosed`, on the value of the field `state`. -/
def stateIsClosed (state : Int) : Bool := decide (state = PoolClose)

/-- The loop of `newWorkerStore` that fills the slice of `n` idle workers. -/
def fillWorkers : Nat → Runtime → List goWorker × Runtime
  | 0, rt => ([], rt)
  | n + 1, rt =>
    let (w, rt1) := newWorker rt
    let (ws, rt2) := fillWorkers n rt1
    (w :: ws, rt2)

/-- Function `newWorkerStore` (worker_pool.go, 25-41); `make([]worker, cap)` panics for
a negative length. -/
def newWorkerStore (cap : Int) (isBlock : Bool) (rt : Runtime) :
    Except GoPanic (capacityStore × Runtime) :=
  if cap ≠ noLimitCap then
    if cap < 0 then throw GoPanic.makesliceLenOutOfRange
    else
      let (ws, rt1) := fillWorkers cap.toNat rt
      pure ({ cap := cap, runningCount := 0, isBlock := isBlock, workers := ws }, rt1)
  else
    pure ({ cap := cap, runningCount := 0, isBlock := isBlock, workers := [] }, rt)

/-- Method `capacityStore.getRunningCount`. -/
def capacityStore.getRunningCount (store : capacityStore) : Int := store.runningCount

/-- Method `capacityStore.incrRunningCount`. -/
def capacityStore.incrRunningCount (store : capacityStore) : capacityStore :=
  { store with runningCount := atomic.AddInt32 store.runningCount 1 }

/-- Method `capacityStore.decrRunningCount`; the non-blocking send on `waitCh` before
the decrement changes no field of the store (`decrRunningCountCh` keeps track of the
channel as well). -/
def capacityStore.decrRunningCount (store : capacityStore) : capacityStore :=
  { store with runningCount := atomic.AddInt32 store.runningCount (-1) }

/-- Method `capacityStore.getWorker` (worker_pool.go, 70-96), one pass from `tryGet`;
`state` is the field read by `store.pool.IsClosed()`. -/
def capacityStore.getWorker (store : capacityStore) (state : Int) (rt : Runtime) :
    Except GoPanic (Acquired × capacityStore × Runtime) :=
  if store.cap = noLimitCap then
    let store1 := store.incrRunningCount
    let (w, rt1) := newWorker rt
    pure (Acquired.worker w, store1, rt1)
  else if !stateIsClosed state then
    if store.getRunningCount < store.cap then
      let store1 := store.incrRunningCount
      match store1.workers.getLast? with
      | none => throw GoPanic.indexOutOfRange
      | some w => pure (Acquired.worker w, { store1 with workers := store1.workers.dropLast }, rt)
    else if store.isBlock then pure (Acquired.wait, store, rt)
    else pure (Acquired.nil, store, rt)
  else pure (Acquired.nil, store, rt)

/-- Method `capacityStore.putWorker` (worker_pool.go, 99-118). -/
def capacityStore.putWorker (store : capacityStore) (state : Int) (w : goWorker)
    (rt : Runtime) : Except GoPanic (capacityStore × Runtime) :=
  if store.cap = noLimitCap then pure (store.decrRunningCount, rt)
  else if stateIsClosed state then do
    let rt1 ← w.stop rt
    pure (store, rt1)
  else
    let store1 :=
      if wrapInt32 store.workers.length < store.cap then
        { store with workers := store.workers ++ [w] }
      else store
    pure (store1.decrRunningCount, rt)

/-- The loop of `capacityStore.close` that stops the idle workers in slice order. -/
def stopAll : List goWorker → Runtime → Except GoPanic Runtime
  | [], rt => pure rt
  | w :: ws, rt => do
    let rt1 ← w.stop rt
    stopAll ws rt1

/-- Method `capacityStore.close` (worker_pool.go, 120-129). -/
def capacityStore.close (store : capacityStore) (rt : Runtime) :
    Except GoPanic (capacityStore × Runtime) := do
  let rt1 ← stopAll store.workers rt
  pure ({ store with workers := [], runningCount := 0 }, rt1)

/-! ## goPool (pool.go) -/

/-- Struct `goPool`; the interface field `workers` is `nil` until `NewPool` sets it. -/
structure goPool where
  workers : Option capacityStore
  state : Int
  cap : Int
  isBlock : Bool
deriving DecidableEq

/-- Type `Option` of pool.go: `func(*goPool)`. -/
abbrev PoolOption := goPool → goPool

/-- Function `WithCapacity` (pool.go, 109-116). -/
def WithCapacity (cap : Int) : PoolOption := fun p =>
  let cap := if cap ≤ 0 ∧ cap ≠ noLimitCap then defaultCap else cap
  { p with cap := cap }

/-- Function `WithBlock` (pool.go, 119-123). -/
def WithBlock (isBlock : Bool) : PoolOption := fun p =>
  { p with isBlock := isBlock }

/-- Function `NewPool` (pool.go, 42-50); the composite literal leaves `cap` and
`isBlock` at their zero values. -/
def NewPool (opts : List PoolOption) (rt : Runtime) : Except GoPanic (goPool × Runtime) := do
  let p0 : goPool := { workers := none, state := PoolOpen, cap := 0, isBlock := false }
  let p := opts.foldl (fun q opt => opt q) p0
  let (store, rt1) ← newWorkerStore p.cap p.isBlock rt
  pure ({ p with workers := some store }, rt1)

/-- Method `goPool.IsClosed`. -/
def goPool.IsClosed (p : goPool) : Bool := stateIsClosed p.state

/-- Method `goPool.RunningCount`; `none` is the nil dereference of an unset store. -/
def goPool.RunningCount (p : goPool) : Option Int :=
  p.workers.map capacityStore.getRunningCount

/-- Result of `RunTask` for a task of type `τ`. -/
inductive Submit (τ : Type) where
  /-- `nil` was returned after the task `t` was handed to the worker `w` -/
  | ok (w : goWorker) (t : τ)
  /-- an error was returned -/
  | err (e : PoolErr)
  /-- the call is parked inside `getWorker` and has not returned -/
  | blocked

/-- Lines 57-64 of `goPool.RunTask`: everything after the check of `IsClosed`. -/
def goPool.RunTask_acquire {τ : Type} (p : goPool) (f : τ) (rt : Runtime) :
    Except GoPanic (Submit τ × goPool × Runtime) :=
  match p.workers with
  | none => throw GoPanic.nilDereference
  | some store => do
    let (a, store1, rt1) ← store.getWorker p.state rt
    let p1 := { p with workers := some store1 }
    match a with
    | Acquired.wait => pure (Submit.blocked, p1, rt1)
    | Acquired.nil => pure (Submit.err ErrorPoolArriveCapacity, p1, rt1)
    | Acquired.worker w => do
      w.submitTask rt1
      pure (Submit.ok w f, p1, rt1)

/-- Method `goPool.RunTask` (pool.go, 52-65). -/
def goPool.RunTask {τ : Type} (p : goPool) (f : τ) (rt : Runtime) :
    Except GoPanic (Submit τ × goPool × Runtime) :=
  if p.IsClosed then pure (Submit.err ErrorPoolClosed, p, rt)
  else p.RunTask_acquire f rt

/-- Method `goPool.Close` (pool.go, 90-95). -/
def goPool.Close (p : goPool) (rt : Runtime) : Except GoPanic (goPool × Runtime) :=
  let (swapped, st) := atomic.CompareAndSwapInt32 p.state PoolOpen PoolClose
  let p1 := { p with state := st }
  if swapped then
    match p1.workers with
    | none => throw GoPanic.nilDereference
    | some store => do
      let (store1, rt1) ← store.close rt
      pure ({ p1 with workers := some store1 }, rt1)
  else pure (p1, rt)

/-! ## Result channel of `RunTaskWithRet` -/

/-- Go channel of element type `α` with a buffer of `cap` slots, seen by its state. -/
structure Chan (α : Type) where
  cap : Nat
  buf : List α
  closed : Bool

/-- Builtin `make(chan T, cap)`. -/
def Chan.make {α : Type} (cap : Nat) : Chan α := { cap := cap, buf := [], closed := false }

/-- Outcome of a receive `<-ch`. -/
inductive Recv (α : Type) where
  /-- a buffered value was taken -/
  | value (v : α)
  /-- the channel is closed and drained: the zero value comes back at once -/
  | closedEmpty
  /-- nothing is buffered and the channel is open: the receiver waits -/
  | block

/-- Receive `<-ch`, when no sender is parked on the channel. -/
def Chan.recv {α : Type} (ch : Chan α) : Recv α × Chan α :=
  match ch.buf with
  | v :: rest => (Recv.value v, { ch with buf := rest })
  | [] => if ch.closed then (Recv.closedEmpty, ch) else (Recv.block, ch)

/-- Outcome of a send `ch <- v` that did not panic. -/
inductive Sent (α : Type) where
  /-- the value went into the buffer -/
  | done (ch : Chan α)
  /-- the buffer is full: the sender waits -/
  | block

/-- Send `ch <- v`, when no receiver is parked on the channel. -/
def Chan.send {α : Type} (ch : Chan α) (v : α) : Except GoPanic (Sent α) :=
  if ch.closed then throw GoPanic.sendOnClosedChannel
  else if ch.buf.length < ch.cap then pure (Sent.done { ch with buf := ch.buf ++ [v] })
  else pure Sent.block

/-- The closure `taskWithRet.f` of `RunTaskWithRet` (pool.go, 83-85), as its effect on
the channel `taskWithRet.retCh` it captures. -/
def taskWithRet_f {α : Type} (f : Unit → α) (retCh : Chan α) : Except GoPanic (Sent α) :=
  retCh.send (f ())

/-- Result of `RunTaskWithRet`. -/
inductive SubmitRet (α : Type) where
  /-- the channel `retCh` and a nil error were returned, after the closure `t` was
  handed to the worker `w` -/
  | ok (retCh : Chan α) (w : goWorker) (t : Chan α → Except GoPanic (Sent α))
  /-- a nil channel and the error were returned -/
  | err (e : PoolErr)
  /-- the call is parked inside `getWorker` and has not returned -/
  | blocked

/-- Lines 72-87 of `goPool.RunTaskWithRet`: everything after the check of `IsClosed`. -/
def goPool.RunTaskWithRet_acquire {α : Type} (p : goPool) (f : Unit → α) (rt : Runtime) :
    Except GoPanic (SubmitRet α × goPool × Runtime) :=
  match p.workers with
  | none => throw GoPanic.nilDereference
  | some store => do
    let (a, store1, rt1) ← store.getWorker p.state rt
    let p1 := { p with workers := some store1 }
    match a with
    | Acquired.wait => pure (SubmitRet.blocked, p1, rt1)
    | Acquired.nil => pure (SubmitRet.err ErrorPoolArriveCapacity, p1, rt1)
    | Acquired.worker w => do
      let retCh : Chan α := Chan.make 1
      w.submitTask rt1
      pure (SubmitRet.ok retCh w (taskWithRet_f f), p1, rt1)

/-- Method `goPool.RunTaskWithRet` (pool.go, 67-88). -/
def goPool.RunTaskWithRet {α : Type} (p : goPool) (f : Unit → α) (rt : Runtime) :
    Except GoPanic (SubmitRet α × goPool × Runtime) :=
  if p.IsClosed then pure (SubmitRet.err ErrorPoolClosed, p, rt)
  else p.RunTaskWithRet_acquire f rt

/-! ## Worker loop (worker.go, 40-56) -/

/-- How the call `t()` of a task ends. -/
inductive TaskEnd where
  /-- the task returns -/
  | returned
  /-- the task panics and `recover()` in the deferred handler is not nil -/
  | panicked
  /-- the goroutine unwinds and `recover()` in the deferred handler is nil: the task
  panics with `panic(nil)` (Go before 1.21) or calls `runtime.Goexit` -/
  | recoverNil
deriving DecidableEq

/-- One round of the loop of `goWorker.run` for a worker that has received a task:
after the task returns the worker puts itself back; when the goroutine unwinds, the
deferred handler tests `err != nil` for `err := recover()`: if so it puts a new worker
into the store, if not it does nothing; either way the goroutine of `w` ends. -/
def goWorker.run_task (w : goWorker) (e : TaskEnd) (store : capacityStore) (state : Int)
    (rt : Runtime) : Except GoPanic (capacityStore × Runtime) :=
  match e with
  | TaskEnd.returned => store.putWorker state w rt
  | TaskEnd.panicked =>
    let (w1, rt1) := newWorker rt
    store.putWorker state w1 rt1
  | TaskEnd.recoverNil => pure (store, rt)

/-! ## The pool as a transition system -/

/-- A pool with its store, the heap, and two ghost fields: `loan` lists the workers that
`getWorker` has handed out and that have not finished their task, `closing` says that a
call of `Close` has won the compare-and-swap and has not yet run `store.close`. A
worker whose goroutine ends with `recover()` nil (`TaskEnd.recoverNil`) changes no field
and never calls `putWorker`: it is a worker that stays in `loan` for good. -/
structure Sys where
  state : Int
  store : capacityStore
  rt : Runtime
  loan : List goWorker
  closing : Bool
deriving DecidableEq

/-- The steps of the pool; the bodies run under `store.lock` or are single atomics. -/
inductive Event where
  /-- a call of `getWorker` (one pass from `tryGet`) -/
  | getWorker
  /-- the task of the worker `w` on loan returns: `putWorker(w)` -/
  | putWorker (w : goWorker)
  /-- the task of the worker `w` on loan panics: `putWorker(newWorker(store))` -/
  | fault (w : goWorker)
  /-- the compare-and-swap of `Close` -/
  | closeCAS
  /-- the call `p.workers.close()` of the `Close` that won the compare-and-swap -/
  | storeClose
deriving DecidableEq

/-- Which steps can happen in a state. -/
def Sys.enabled (s : Sys) : Event → Bool
  | Event.getWorker => true
  | Event.putWorker w => decide (w ∈ s.loan)
  | Event.fault w => decide (w ∈ s.loan)
  | Event.closeCAS => true
  | Event.storeClose => s.closing

/-- Effect of a step. -/
def Sys.step (s : Sys) : Event → Except GoPanic Sys
  | Event.getWorker => do
    let (a, store1, rt1) ← s.store.getWorker s.state s.rt
    match a with
    | Acquired.worker w => pure { s with store := store1, rt := rt1, loan := w :: s.loan }
    | _ => pure { s with store := store1, rt := rt1 }
  | Event.putWorker w => do
    let (store1, rt1) ← w.run_task TaskEnd.returned s.store s.state s.rt
    pure { s with store := store1, rt := rt1, loan := s.loan.erase w }
  | Event.fault w => do
    let (store1, rt1) ← w.run_task TaskEnd.panicked s.store s.state s.rt
    pure { s with store := store1, rt := rt1, loan := s.loan.erase w }
  | Event.closeCAS =>
    let (swapped, st) := atomic.CompareAndSwapInt32 s.state PoolOpen PoolClose
    pure { s with state := st, closing := s.closing || swapped }
  | Event.storeClose => do
    let (store1, rt1) ← s.store.close s.rt
    pure { s with store := store1, rt := rt1, closing := false }

/-- Run a list of steps, each of which has to be enabled; `none` when one is not. -/
def Sys.run (s : Sys) : List Event → Option (Except GoPanic Sys)
  | [] => some (pure s)
  | e :: es =>
    if s.enabled e then
      match s.step e with
      | Except.ok s1 => s1.run es
      | Except.error x => some (throw x)
    else none

/-- The heap is well formed: closed channels belong to allocated workers, once each. -/
def Runtime.WF (rt : Runtime) : Prop :=
  rt.closedCh.Nodup ∧ ∀ i ∈ rt.closedCh, i < rt.nextWorker

/-- The state right after `newWorkerStore(cap, isBlock, p)` for a pool `p` that is open. -/
def Sys.init (cap : Int) (isBlock : Bool) (rt0 : Runtime) : Except GoPanic Sys := do
  let (store, rt) ← newWorkerStore cap isBlock rt0
  pure { state := PoolOpen, store := store, rt := rt, loan := [], closing := false }

/-- The pool of a state. -/
def Sys.pool (s : Sys) : goPool :=
  { workers := some s.store, state := s.state, cap := s.store.cap, isBlock := s.store.isBlock }

/-- States reachable from `newWorkerStore` with an `int32` capacity by enabled steps
that do not panic. -/
inductive Reachable : Sys → Prop where
  | init (cap : Int) (isBlock : Bool) (rt0 : Runtime) (s : Sys) :
      isInt32 cap → rt0.WF → Sys.init cap isBlock rt0 = Except.ok s → Reachable s
  | step (s : Sys) (e : Event) (s1 : Sys) :
      Reachable s → s.enabled e = true → s.step e = Except.ok s1 → Reachable s1

/-! ## Invariant of the reachable states -/

/-- What holds in every reachable state: facts about worker identities for all pools,
and the counting facts for bounded pools. -/
structure Inv (s : Sys) : Prop where
  rt_nodup : s.rt.closedCh.Nodup
  rt_alloc : ∀ i ∈ s.rt.closedCh, i < s.rt.nextWorker
  nodup : (s.store.workers ++ s.loan).Nodup
  alloc : ∀ w ∈ s.store.workers ++ s.loan, w.id < s.rt.nextWorker
  live : ∀ w ∈ s.store.workers ++ s.loan, w.id ∉ s.rt.closedCh
  state_ok : s.state = PoolOpen ∨ s.state = PoolClose
  closing_closed : s.closing = true → s.state = PoolClose
  cap_int32 : isInt32 s.store.cap
  cap_nonneg : s.store.cap ≠ noLimitCap → 0 ≤ s.store.cap
  rc_nonneg : s.store.cap ≠ noLimitCap → 0 ≤ s.store.runningCount
  sum_le : s.store.cap ≠ noLimitCap →
    s.store.runningCount + s.store.workers.length ≤ s.store.cap
  open_rc : s.store.cap ≠ noLimitCap → s.state = PoolOpen →
    s.store.runningCount = s.loan.length
  open_sum : s.store.cap ≠ noLimitCap → s.state = PoolOpen →
    s.store.runningCount + s.store.workers.length = s.store.cap
  closed_done : s.store.cap ≠ noLimitCap → s.state = PoolClose → s.closing = false →
    s.store.runningCount = 0 ∧ s.store.workers = []
  unlimited_idle : s.store.cap = noLimitCap → s.store.workers = []
  rc_int32 : isInt32 s.store.runningCount

/-! ## Concrete states used to instantiate the theorems -/

/-- The heap of a program that has not created a worker yet. -/
def rtEmpty : Runtime := { nextWorker := 0, closedCh := [] }

/-- A pool of capacity 2, not blocking, after one `getWorker`. -/
def sysOneOnLoan : Sys :=
  { state := PoolOpen,
    store := { cap := 2, runningCount := 1, isBlock := false, workers := [⟨0⟩] },
    rt := { nextWorker := 2, closedCh := [] },
    loan := [⟨1⟩],
    closing := false }

/-- A pool of capacity 1, not blocking, whose single worker is on loan. -/
def sysCap1Busy : Sys :=
  { state := PoolOpen,
    store := { cap := 1, runningCount := 1, isBlock := false, workers := [] },
    rt := { nextWorker := 1, closedCh := [] },
    loan := [⟨0⟩],
    closing := false }

/-- An unlimited pool on the empty heap after `Close`: the compare-and-swap and
`store.close` have both run. -/
def sysUnlimitedClosed : Sys :=
  { state := PoolClose,
    store := { cap := noLimitCap, runningCount := 0, isBlock := false, workers := [] },
    rt := rtEmpty,
    loan := [],
    closing := false }

/-- An unlimited pool right after `newWorkerStore` on the empty heap. -/
def sysUnlimitedStart : Sys :=
  { state := PoolOpen,
    store := { cap := noLimitCap, runningCount := 0, isBlock := false, workers := [] },
    rt := rtEmpty,
    loan := [],
    closing := false }

/-- The unlimited pool after one `getWorker`, then `Close`, then the return of the task
that was running on the worker handed out. -/
def sysUnlimitedNegative : Sys :=
  { state := PoolClose,
    store := { cap := noLimitCap, runningCount := -1, isBlock := false, workers := [] },
    rt := { nextWorker := 1, closedCh := [] },
    loan := [],
    closing := false }

/-- Workers `n - 1, ..., 0`, the most recent first. -/
def loanOf : Nat → List goWorker
  | 0 => []
  | n + 1 => ⟨n⟩ :: loanOf n

/-- The open unlimited pool after `n` calls of `getWorker` on the empty heap, none of
whose tasks has finished. -/
def unlimitedAfter (n : Nat) : Sys :=
  { state := PoolOpen,
    store := { cap := noLimitCap, runningCount := n, isBlock := false, workers := [] },
    rt := { nextWorker := n, closedCh := [] },
    loan := loanOf n,
    closing := false }

/-- A pool of capacity 2 in the middle of `Close`: worker 1 was on loan when the
compare-and-swap closed the pool, its task has returned and `putWorker` has stopped it;
`store.close` has not run yet, so worker 0 is still idle. -/
def sysMidClose : Sys :=
  { state := PoolClose,
    store := { cap := 2, runningCount := 1, isBlock := false, workers := [⟨0⟩] },
    rt := { nextWorker := 2, closedCh := [1] },
    loan := [],
    closing := true }

/-- The pool that `NewPool(WithCapacity(-1))` builds. -/
def poolUnlimited : goPool :=
  { workers := some { cap := noLimitCap, runningCount := 0, isBlock := false, workers := [] },
    state := PoolOpen, cap := noLimitCap, isBlock := false }

/-- The pool `poolUnlimited` after `Close`. -/
def poolUnlimitedClosed : goPool :=
  { workers := some { cap := noLimitCap, runningCount := 0, isBlock := false, workers := [] },
    state := PoolClose, cap := noLimitCap, isBlock := false }

/-- The pool `poolUnlimitedClosed` after `getWorker` has handed out worker 0. -/
def poolUnlimitedClosedBusy : goPool :=
  { workers := some { cap := noLimitCap, runningCount := 1, isBlock := false, workers := [] },
    state := PoolClose, cap := noLimitCap, isBlock := false }

/-- A bounded store of capacity 2 with both workers idle. -/
def storeCap2 : capacityStore :=
  { cap := 2, runningCount := 0, isBlock := false, workers := [⟨0⟩, ⟨1⟩] }

/-- The pool that `NewPool(WithCapacity(2))` builds on the empty heap. -/
def poolCap2 : goPool :=
  { workers := some { cap := 2, runningCount := 0, isBlock := false, workers := [⟨0⟩, ⟨1⟩] },
    state := PoolOpen, cap := 2, isBlock := false }

/-- The pool `poolCap2` after one successful submission: worker 1 is on loan. -/
def poolCap2Busy : goPool :=
  { workers := some { cap := 2, runningCount := 1, isBlock := false, workers := [⟨0⟩] },
    state := PoolOpen, cap := 2, isBlock := false }

/-- The pool `poolCap2` after `Close`. -/
def poolCap2Closed : goPool :=
  { workers := some { cap := 2, runningCount := 0, isBlock := false, workers := [] },
    state := PoolClose, cap := 2, isBlock := false }

/-- A pool of capacity 2 that has been closed while worker 1 was on loan, after the
task on worker 1 has returned: both workers have been stopped. -/
def sysClosedAll : Sys :=
  { state := PoolClose,
    store := { cap := 2, runningCount := 0, isBlock := false, workers := [] },
    rt := { nextWorker := 2, closedCh := [0, 1] },
    loan := [],
    closing := false }

/-! ## Blocking callers of `getWorker` and the channel `waitCh` -/

/-- Method `capacityStore.decrRunningCount` together with the channel `waitCh`, whose
state is the number `parked` of goroutines blocked in `<-store.waitCh`: the `select`
sends when a receiver is parked, which releases that receiver, and takes its `default`
branch otherwise; then the count is decremented. -/
def capacityStore.decrRunningCountCh (store : capacityStore) (parked : Nat) :
    capacityStore × Nat :=
  let parked1 :=
    if store.isBlock then
      if 0 < parked then parked - 1 else parked
    else parked
  ({ store with runningCount := atomic.AddInt32 store.runningCount (-1) }, parked1)

/-- Method `capacityStore.putWorker` (worker_pool.go, 99-118) together with `waitCh`. -/
def capacityStore.putWorkerCh (store : capacityStore) (state : Int) (w : goWorker)
    (rt : Runtime) (parked : Nat) : Except GoPanic (capacityStore × Runtime × Nat) :=
  if store.cap = noLimitCap then
    let (store1, parked1) := store.decrRunningCountCh parked
    pure (store1, rt, parked1)
  else if stateIsClosed state then do
    let rt1 ← w.stop rt
    pure (store, rt1, parked)
  else
    let store1 :=
      if wrapInt32 store.workers.length < store.cap then
        { store with workers := store.workers ++ [w] }
      else store
    let (store2, parked1) := store1.decrRunningCountCh parked
    pure (store2, rt, parked1)

/-- The pool together with the callers of `getWorker`, counted by where they stand. -/
structure Conc where
  sys : Sys
  /-- callers at the label `tryGet`: they have just called, or have been woken -/
  ready : Nat
  /-- callers that found the store full and released the lock (line 89) but have not
  yet executed the receive of line 90 -/
  unlocked : Nat
  /-- callers blocked in the receive `<-store.waitCh` of line 90 -/
  parked : Nat
deriving DecidableEq

/-- The steps of the pool with its callers. -/
inductive CEvent where
  /-- a goroutine calls `getWorker` -/
  | call
  /-- a caller at `tryGet` runs the pass under the lock -/
  | tryGet
  /-- a caller that has released the lock executes `<-store.waitCh` and blocks: no
  sender ever waits on `waitCh`, all sends being the non-blocking one of `select` -/
  | recv
  /-- the task of the worker `w` on loan returns: `putWorker(w)` -/
  | putWorker (w : goWorker)
  /-- the task of the worker `w` on loan panics: `putWorker(newWorker(store))` -/
  | fault (w : goWorker)
  /-- the compare-and-swap of `Close` -/
  | closeCAS
  /-- the call `p.workers.close()` of the `Close` that won the compare-and-swap -/
  | storeClose
deriving DecidableEq

/-- Which steps can happen in a state. -/
def Conc.enabled (c : Conc) : CEvent → Bool
  | CEvent.call => true
  | CEvent.tryGet => decide (0 < c.ready)
  | CEvent.recv => decide (0 < c.unlocked)
  | CEvent.putWorker w => decide (w ∈ c.sys.loan)
  | CEvent.fault w => decide (w ∈ c.sys.loan)
  | CEvent.closeCAS => true
  | CEvent.storeClose => c.sys.closing

/-- Effect of a step. -/
def Conc.step (c : Conc) : CEvent → Except GoPanic Conc
  | CEvent.call => pure { c with ready := c.ready + 1 }
  | CEvent.tryGet => do
    let (a, store1, rt1) ← c.sys.store.getWorker c.sys.state c.sys.rt
    match a with
    | Acquired.worker w =>
      pure { c with sys := { c.sys with store := store1, rt := rt1, loan := w :: c.sys.loan },
                    ready := c.ready - 1 }
    | Acquired.nil =>
      pure { c with sys := { c.sys with store := store1, rt := rt1 }, ready := c.ready - 1 }
    | Acquired.wait =>
      pure { c with sys := { c.sys with store := store1, rt := rt1 }, ready := c.ready - 1,
                    unlocked := c.unlocked + 1 }
  | CEvent.recv => pure { c with unlocked := c.unlocked - 1, parked := c.parked + 1 }
  | CEvent.putWorker w => do
    let (store1, rt1, parked1) ← c.sys.store.putWorkerCh c.sys.state w c.sys.rt c.parked
    pure { c with sys := { c.sys with store := store1, rt := rt1, loan := c.sys.loan.erase w },
                  ready := c.ready + (c.parked - parked1), parked := parked1 }
  | CEvent.fault w => do
    let (w1, rt0) := newWorker c.sys.rt
    let (store1, rt1, parked1) ← c.sys.store.putWorkerCh c.sys.state w1 rt0 c.parked
    pure { c with sys := { c.sys with store := store1, rt := rt1, loan := c.sys.loan.erase w },
                  ready := c.ready + (c.parked - parked1), parked := parked1 }
  | CEvent.closeCAS => do
    let sys1 ← c.sys.step Event.closeCAS
    pure { c with sys := sys1 }
  | CEvent.storeClose => do
    let sys1 ← c.sys.step Event.storeClose
    pure { c with sys := sys1 }

/-- Run a list of steps, each of which has to be enabled; `none` when one is not. -/
def Conc.run (c : Conc) : List CEvent → Option (Except GoPanic Conc)
  | [] => some (pure c)
  | e :: es =>
    if c.enabled e then
      match c.step e with
      | Except.ok c1 => c1.run es
      | Except.error x => some (throw x)
    else none

/-- The blocking pool of capacity 1 right after `newWorkerStore`, with no caller. -/
def concStart : Conc :=
  { sys := { state := PoolOpen,
             store := { cap := 1, runningCount := 0, isBlock := true, workers := [⟨0⟩] },
             rt := { nextWorker := 1, closedCh := [] },
             loan := [],
             closing := false },
    ready := 0, unlocked := 0, parked := 0 }

/-- The blocking pool of capacity 1 with its worker idle again and one caller blocked
in `<-store.waitCh`. -/
def concStuck : Conc :=
  { sys := { state := PoolOpen,
             store := { cap := 1, runningCount := 0, isBlock := true, workers := [⟨0⟩] },
             rt := { nextWorker := 1, closedCh := [] },
             loan := [],
             closing := false },
    ready := 0, unlocked := 0, parked := 1 }

/-- The blocking pool of capacity 1 after the second caller has got the worker. -/
def concServed : Conc :=
  { sys := { state := PoolOpen,
             store := { cap := 1, runningCount := 1, isBlock := true, workers := [] },
             rt := { nextWorker := 1, closedCh := [] },
             loan := [⟨0⟩],
             closing := false },
    ready := 0, unlocked := 0, parked := 0 }

theorem wrapInt32_eq_self {x : Int} (h : isInt32 x) : wrapInt32 x = x := by
  unfold isInt32 at h
  unfold wrapInt32
  omega

theorem isInt32_zero : isInt32 0 := by
  unfold isInt32
  omega

theorem AddInt32_isInt32 (v d : Int) : isInt32 (atomic.AddInt32 v d) := by
  unfold atomic.AddInt32 wrapInt32 isInt32
  omega

theorem fillWorkers_snd (n : Nat) (rt : Runtime) :
    (fillWorkers n rt).2 = { rt with nextWorker := rt.nextWorker + n } := by
  induction n generalizing rt with
  | zero => simp [fillWorkers]
  | succ n ih =>
    simp only [fillWorkers, newWorker, ih]
    congr 1
    omega

theorem fillWorkers_length (n : Nat) (rt : Runtime) : (fillWorkers n rt).1.length = n := by
  induction n generalizing rt with
  | zero => simp [fillWorkers]
  | succ n ih => simp [fillWorkers, ih]

theorem fillWorkers_mem (n : Nat) (rt : Runtime) (w : goWorker)
    (h : w ∈ (fillWorkers n rt).1) : rt.nextWorker ≤ w.id ∧ w.id < rt.nextWorker + n := by
  induction n generalizing rt with
  | zero => simp [fillWorkers] at h
  | succ n ih =>
    simp only [fillWorkers, List.mem_cons] at h
    rcases h with h | h
    · subst h
      simp [newWorker]
    · have := ih _ h
      simp only [newWorker] at this
      omega

theorem fillWorkers_nodup (n : Nat) (rt : Runtime) : (fillWorkers n rt).1.Nodup := by
  induction n generalizing rt with
  | zero => simp [fillWorkers]
  | succ n ih =>
    simp only [fillWorkers, List.nodup_cons]
    refine ⟨?_, ih _⟩
    intro hmem
    have := fillWorkers_mem n _ _ hmem
    simp [newWorker] at this

theorem stopAll_ok (ws : List goWorker) (rt : Runtime) (hnd : ws.Nodup)
    (hlive : ∀ w ∈ ws, w.id ∉ rt.closedCh) :
    stopAll ws rt = Except.ok { rt with closedCh := rt.closedCh ++ ws.map goWorker.id } := by
  induction ws generalizing rt with
  | nil => simp [stopAll, pure, Except.pure]
  | cons w ws ih =>
    have hw : w.id ∉ rt.closedCh := hlive w (List.mem_cons_self _ _)
    have hnd1 := List.nodup_cons.mp hnd
    simp only [stopAll, goWorker.stop, hw, if_false, bind, Except.bind, pure, Except.pure]
    rw [ih]
    · simp
    · exact hnd1.2
    · intro v hv
      simp only [List.mem_append, List.mem_singleton, not_or]
      refine ⟨hlive v (List.mem_cons_of_mem _ hv), ?_⟩
      intro hid
      have : v = w := by
        cases v; cases w; simp_all
      subst this
      exact hnd1.1 hv

theorem Inv_init (cap : Int) (isBlock : Bool) (rt0 : Runtime) (s : Sys)
    (hcap : isInt32 cap) (hrt : rt0.WF) (h : Sys.init cap isBlock rt0 = Except.ok s) :
    Inv s := by
  unfold Sys.init newWorkerStore at h
  by_cases hc : cap = noLimitCap
  · simp only [hc, ne_eq, not_true_eq_false, if_false, bind, Except.bind, pure,
      Except.pure, Except.ok.injEq] at h
    subst h
    constructor <;> simp_all [Runtime.WF, noLimitCap, PoolOpen, PoolClose]
    exact isInt32_zero
  · by_cases hneg : cap < 0
    · simp [hc, hneg, bind, Except.bind, throw, throwThe, MonadExceptOf.throw] at h
    · simp only [ne_eq, hc, not_false_eq_true, if_true, hneg, if_false, bind, Except.bind,
        pure, Except.pure, Except.ok.injEq] at h
      subst h
      have hlen := fillWorkers_length cap.toNat rt0
      have hmem := fillWorkers_mem cap.toNat rt0
      have hnd := fillWorkers_nodup cap.toNat rt0
      have hsnd := fillWorkers_snd cap.toNat rt0
      constructor <;> simp_all [Runtime.WF, noLimitCap, PoolOpen, PoolClose]
      · intro i hi
        have := hrt.2 i hi
        omega
      · intro w hw hcl
        have h1 := hmem w hw
        have h2 := hrt.2 _ hcl
        omega
      · exact isInt32_zero

theorem getLast?_cases {α : Type} (l : List α) :
    l = [] ∨ ∃ ys w, l = ys ++ [w] := by
  cases hg : l.getLast? with
  | none => exact Or.inl (List.getLast?_eq_none_iff.mp hg)
  | some w =>
    obtain ⟨ys, hys⟩ := List.getLast?_eq_some_iff.mp hg
    exact Or.inr ⟨ys, w, hys⟩

theorem AddInt32_succ {v : Int} (h0 : 0 ≤ v) (h1 : v < 2147483647) :
    atomic.AddInt32 v 1 = v + 1 := by
  unfold atomic.AddInt32 wrapInt32
  omega

theorem AddInt32_pred {v : Int} (h0 : -2147483648 < v) (h1 : v ≤ 2147483647) :
    atomic.AddInt32 v (-1) = v - 1 := by
  unfold atomic.AddInt32 wrapInt32
  omega

theorem Inv_getWorker (s s1 : Sys) (hinv : Inv s)
    (h : s.step Event.getWorker = Except.ok s1) : Inv s1 := by
  obtain ⟨h1, h2, h3, h4, h5, h6, h7, h8, h9, h10, h11, h12, h13, h14, h15, h16⟩ := hinv
  obtain ⟨state, ⟨cap, rc, isBlock, workers⟩, rt, loan, closing⟩ := s
  simp only at h1 h2 h3 h4 h5 h6 h7 h8 h9 h10 h11 h12 h13 h14 h15 h16
  unfold Sys.step capacityStore.getWorker at h
  by_cases hc : cap = noLimitCap
  · simp only [hc, if_true, bind, Except.bind, pure, Except.pure, newWorker,
      Except.ok.injEq] at h
    subst h
    constructor <;> simp_all [capacityStore.incrRunningCount]
    · intro i hi
      have := h2 i hi
      omega
    · intro hm
      have := h4 _ hm
      simp at this
    · intro a ha
      have := h4 a ha
      omega
    · intro hm
      have := h2 _ hm
      omega
    · exact AddInt32_isInt32 _ _
  · by_cases hcl : stateIsClosed state = true
    · simp only [hc, if_false, hcl, Bool.not_true, Bool.false_eq_true, bind, Except.bind,
        pure, Except.pure, Except.ok.injEq] at h
      subst h
      constructor <;> assumption
    · have hopen : state = PoolOpen := by
        rcases h6 with h6 | h6
        · exact h6
        · simp [stateIsClosed, h6] at hcl
      simp only [Bool.not_eq_true] at hcl
      by_cases hlt : rc < cap
      · have hsum := h13 hc hopen
        have hrc0 := h10 hc
        have hrcl := h12 hc hopen
        rcases getLast?_cases workers with hnil | ⟨ys, w, hys⟩
        · subst hnil
          simp at hsum
          omega
        · subst hys
          have hrc : atomic.AddInt32 rc 1 = rc + 1 := by
            apply AddInt32_succ hrc0
            unfold isInt32 at h8
            omega
          simp only [hc, if_false, hcl, Bool.not_false, if_true, bind, Except.bind,
            pure, Except.pure, capacityStore.getRunningCount, hlt,
            capacityStore.incrRunningCount, hrc, List.getLast?_concat,
            List.dropLast_concat, Except.ok.injEq] at h
          subst h
          have hperm : (ys ++ w :: loan).Perm (ys ++ [w] ++ loan) := by
            simp
          constructor
          all_goals simp only
          · exact h1
          · exact h2
          · exact hperm.nodup_iff.mpr h3
          · intro v hv
            exact h4 v (hperm.mem_iff.mp hv)
          · intro v hv
            exact h5 v (hperm.mem_iff.mp hv)
          · exact h6
          · exact h7
          · exact h8
          · exact h9
          · intro _
            omega
          · intro _
            simp only [List.length_append, List.length_singleton, Nat.cast_add,
              Nat.cast_one] at hsum
            omega
          · intro _ _
            simp only [List.length_cons, Nat.cast_add, Nat.cast_one]
            omega
          · intro _ _
            simp only [List.length_append, List.length_singleton, Nat.cast_add,
              Nat.cast_one] at hsum
            omega
          · intro _ hcl2
            rw [hopen] at hcl2
            simp [PoolOpen, PoolClose] at hcl2
          · intro hcc
            exact absurd hcc hc
          · unfold isInt32 at h8 ⊢
            omega
      · cases isBlock
        · simp only [hc, if_false, hcl, Bool.not_false, if_true, bind, Except.bind,
            pure, Except.pure, capacityStore.getRunningCount, hlt, Bool.false_eq_true,
            Except.ok.injEq] at h
          subst h
          constructor <;> assumption
        · simp only [hc, if_false, hcl, Bool.not_false, if_true, bind, Except.bind,
            pure, Except.pure, capacityStore.getRunningCount, hlt, Except.ok.injEq] at h
          subst h
          constructor <;> assumption

theorem goWorker_eq_of_id {v w : goWorker} (h : v.id = w.id) : v = w := by
  cases v
  cases w
  simp_all

theorem Inv_put_any (s : Sys) (w v : goWorker) (store1 : capacityStore) (rt1 : Runtime)
    (hinv : Inv s) (hw : w ∈ s.loan) (hv : v ∉ s.store.workers ++ s.loan.erase w)
    (hva : v.id < s.rt.nextWorker) (hvl : v.id ∉ s.rt.closedCh)
    (h : s.store.putWorker s.state v s.rt = Except.ok (store1, rt1)) :
    Inv { s with store := store1, rt := rt1, loan := s.loan.erase w } := by
  obtain ⟨h1, h2, h3, h4, h5, h6, h7, h8, h9, h10, h11, h12, h13, h14, h15, h16⟩ := hinv
  obtain ⟨state, ⟨cap, rc, isBlock, workers⟩, rt, loan, closing⟩ := s
  simp only at h1 h2 h3 h4 h5 h6 h7 h8 h9 h10 h11 h12 h13 h14 h15 h16 hw hv hva hvl h
  simp only
  have hsub : (workers ++ loan.erase w).Sublist (workers ++ loan) :=
    List.Sublist.append (List.Sublist.refl _) (List.erase_sublist _ _)
  have hnd : (workers ++ loan.erase w).Nodup := h3.sublist hsub
  have hlen : loan.length = (loan.erase w).length + 1 := by
    have := List.length_erase_of_mem hw
    have hpos : 0 < loan.length := List.length_pos_of_mem hw
    omega
  unfold capacityStore.putWorker at h
  by_cases hc : cap = noLimitCap
  · subst hc
    simp only [if_true, pure, Except.pure, Except.ok.injEq, Prod.mk.injEq] at h
    obtain ⟨hs, hr⟩ := h
    subst hs hr
    have hwk := h15 rfl
    subst hwk
    constructor
    all_goals simp only [capacityStore.decrRunningCount]
    · exact h1
    · exact h2
    · exact hnd
    · intro u hu
      exact h4 u (hsub.subset hu)
    · intro u hu
      exact h5 u (hsub.subset hu)
    · exact h6
    · exact h7
    · exact h8
    · intro hcc
      exact absurd rfl hcc
    · intro hcc
      exact absurd rfl hcc
    · intro hcc
      exact absurd rfl hcc
    · intro hcc
      exact absurd rfl hcc
    · intro hcc
      exact absurd rfl hcc
    · intro hcc
      exact absurd rfl hcc
    · intro _
      trivial
    · exact AddInt32_isInt32 _ _
  · by_cases hcl : stateIsClosed state = true
    · have hst : state = PoolClose := by
        simpa [stateIsClosed] using hcl
      simp only [hc, if_false, hcl, if_true, goWorker.stop, hvl, bind, Except.bind, pure,
        Except.pure, Except.ok.injEq, Prod.mk.injEq] at h
      obtain ⟨hs, hr⟩ := h
      subst hs hr
      constructor
      all_goals simp only
      · rw [List.nodup_append]
        refine ⟨h1, List.nodup_singleton _, ?_⟩
        intro a ha hb
        simp only [List.mem_singleton] at hb
        subst hb
        exact hvl ha
      · intro i hi
        rcases List.mem_append.mp hi with hi | hi
        · exact h2 i hi
        · simp only [List.mem_singleton] at hi
          subst hi
          exact hva
      · exact hnd
      · intro u hu
        exact h4 u (hsub.subset hu)
      · intro u hu hmem
        rcases List.mem_append.mp hmem with hmem | hmem
        · exact h5 u (hsub.subset hu) hmem
        · simp only [List.mem_singleton] at hmem
          have := goWorker_eq_of_id hmem
          subst this
          exact hv hu
      · exact h6
      · exact h7
      · exact h8
      · exact h9
      · exact h10
      · exact h11
      · intro _ ho
        rw [hst] at ho
        simp [PoolOpen, PoolClose] at ho
      · intro _ ho
        rw [hst] at ho
        simp [PoolOpen, PoolClose] at ho
      · exact h14
      · exact h15
      · exact h16
    · have hopen : state = PoolOpen := by
        rcases h6 with h6 | h6
        · exact h6
        · simp [stateIsClosed, h6] at hcl
      have hsum := h13 hc hopen
      have hrcl := h12 hc hopen
      have hcap0 := h9 hc
      have hwrap : wrapInt32 (workers.length : Int) = workers.length := by
        apply wrapInt32_eq_self
        unfold isInt32 at h8 ⊢
        omega
      have hlt : (workers.length : Int) < cap := by omega
      have hrc : atomic.AddInt32 rc (-1) = rc - 1 := by
        apply AddInt32_pred
        · omega
        · unfold isInt32 at h8
          omega
      simp only [hc, if_false, hcl, Bool.false_eq_true, hwrap, hlt, if_true, pure, Except.pure,
        capacityStore.decrRunningCount, hrc, Except.ok.injEq, Prod.mk.injEq] at h
      obtain ⟨hs, hr⟩ := h
      subst hs hr
      have hperm : (workers ++ [v] ++ loan.erase w).Perm (v :: (workers ++ loan.erase w)) := by
        simp only [List.append_assoc, List.singleton_append]
        exact List.perm_middle
      constructor
      all_goals simp only
      · exact h1
      · exact h2
      · rw [hperm.nodup_iff, List.nodup_cons]
        exact ⟨hv, hnd⟩
      · intro u hu
        rcases List.mem_cons.mp (hperm.mem_iff.mp hu) with hu | hu
        · subst hu
          exact hva
        · exact h4 u (hsub.subset hu)
      · intro u hu
        rcases List.mem_cons.mp (hperm.mem_iff.mp hu) with hu | hu
        · subst hu
          exact hvl
        · exact h5 u (hsub.subset hu)
      · exact h6
      · exact h7
      · exact h8
      · exact h9
      · intro _
        omega
      · intro _
        simp only [List.length_append, List.length_singleton, Nat.cast_add, Nat.cast_one]
        omega
      · intro _ _
        omega
      · intro _ _
        simp only [List.length_append, List.length_singleton, Nat.cast_add, Nat.cast_one]
        omega
      · intro _ ho
        rw [hopen] at ho
        simp [PoolOpen, PoolClose] at ho
      · intro hcc
        exact absurd hcc hc
      · unfold isInt32 at h16 ⊢
        omega

theorem not_mem_erase_of_nodup {ws loan : List goWorker} {w : goWorker}
    (hnd : (ws ++ loan).Nodup) (hw : w ∈ loan) : w ∉ ws ++ loan.erase w := by
  intro hmem
  rw [List.nodup_append] at hnd
  rcases List.mem_append.mp hmem with hm | hm
  · exact hnd.2.2 hm hw
  · exact (List.Nodup.not_mem_erase hnd.2.1) hm

theorem Inv_putWorker (s s1 : Sys) (w : goWorker) (hinv : Inv s) (hw : w ∈ s.loan)
    (h : s.step (Event.putWorker w) = Except.ok s1) : Inv s1 := by
  unfold Sys.step goWorker.run_task at h
  simp only [bind, Except.bind] at h
  cases hp : s.store.putWorker s.state w s.rt with
  | error x => rw [hp] at h; simp at h
  | ok r =>
    obtain ⟨store1, rt1⟩ := r
    rw [hp] at h
    simp only [pure, Except.pure, Except.ok.injEq] at h
    subst h
    have hmem : w ∈ s.store.workers ++ s.loan := List.mem_append_right _ hw
    exact Inv_put_any s w w store1 rt1 hinv hw (not_mem_erase_of_nodup hinv.nodup hw)
      (hinv.alloc w hmem) (hinv.live w hmem) hp

theorem Inv_alloc (s : Sys) (hinv : Inv s) : Inv { s with rt := (newWorker s.rt).2 } := by
  obtain ⟨h1, h2, h3, h4, h5, h6, h7, h8, h9, h10, h11, h12, h13, h14, h15, h16⟩ := hinv
  constructor
  all_goals simp only [newWorker]
  all_goals first
    | assumption
    | (intro i hi
       have := h2 i hi
       omega)
    | (intro u hu
       have := h4 u hu
       omega)

theorem Inv_fault (s s1 : Sys) (w : goWorker) (hinv : Inv s) (hw : w ∈ s.loan)
    (h : s.step (Event.fault w) = Except.ok s1) : Inv s1 := by
  unfold Sys.step goWorker.run_task at h
  simp only [bind, Except.bind] at h
  cases hp : s.store.putWorker s.state (newWorker s.rt).1 (newWorker s.rt).2 with
  | error x => rw [hp] at h; simp at h
  | ok r =>
    obtain ⟨store1, rt1⟩ := r
    rw [hp] at h
    simp only [pure, Except.pure, Except.ok.injEq] at h
    subst h
    have hfresh : (newWorker s.rt).1 ∉ s.store.workers ++ s.loan.erase w := by
      intro hmem
      have hsub : (s.store.workers ++ s.loan.erase w).Sublist (s.store.workers ++ s.loan) :=
        List.Sublist.append (List.Sublist.refl _) (List.erase_sublist _ _)
      have := hinv.alloc _ (hsub.subset hmem)
      simp [newWorker] at this
    have hlive : (newWorker s.rt).1.id ∉ s.rt.closedCh := by
      intro hmem
      have := hinv.rt_alloc _ hmem
      simp [newWorker] at this
    exact Inv_put_any { s with rt := (newWorker s.rt).2 } w (newWorker s.rt).1 store1 rt1
      (Inv_alloc s hinv) hw hfresh (by simp [newWorker]) hlive hp

theorem Inv_closeCAS (s s1 : Sys) (hinv : Inv s)
    (h : s.step Event.closeCAS = Except.ok s1) : Inv s1 := by
  obtain ⟨h1, h2, h3, h4, h5, h6, h7, h8, h9, h10, h11, h12, h13, h14, h15, h16⟩ := hinv
  obtain ⟨state, store, rt, loan, closing⟩ := s
  dsimp only at h1 h2 h3 h4 h5 h6 h7 h8 h9 h10 h11 h12 h13 h14 h15 h16 h16
  unfold Sys.step atomic.CompareAndSwapInt32 at h
  rcases h6 with ho | hcl
  · subst ho
    simp only [if_true, pure, Except.pure, Bool.or_true, Except.ok.injEq] at h
    subst h
    constructor
    all_goals dsimp only
    · exact h1
    · exact h2
    · exact h3
    · exact h4
    · exact h5
    · exact Or.inr rfl
    · intro _
      rfl
    · exact h8
    · exact h9
    · exact h10
    · exact h11
    · intro _ hcc
      simp [PoolOpen, PoolClose] at hcc
    · intro _ hcc
      simp [PoolOpen, PoolClose] at hcc
    · intro _ _ hcc
      simp at hcc
    · exact h15
    · exact h16
  · subst hcl
    have hne : ¬ PoolClose = PoolOpen := by
      simp [PoolOpen, PoolClose]
    simp only [hne, if_false, pure, Except.pure, Bool.or_false, Except.ok.injEq] at h
    subst h
    constructor
    all_goals dsimp only
    all_goals first
      | assumption
      | exact Or.inr rfl

theorem Inv_storeClose (s s1 : Sys) (hinv : Inv s) (hen : s.closing = true)
    (h : s.step Event.storeClose = Except.ok s1) : Inv s1 := by
  obtain ⟨h1, h2, h3, h4, h5, h6, h7, h8, h9, h10, h11, h12, h13, h14, h15, h16⟩ := hinv
  have hst := h7 hen
  have hnd := List.nodup_append.mp h3
  have hstop := stopAll_ok s.store.workers s.rt hnd.1
    (fun w hw => h5 w (List.mem_append_left _ hw))
  unfold Sys.step capacityStore.close at h
  simp only [hstop, bind, Except.bind, pure, Except.pure, Except.ok.injEq] at h
  subst h
  constructor
  all_goals dsimp only
  · rw [List.nodup_append]
    refine ⟨h1, hnd.1.map ?_, ?_⟩
    · intro a b hab
      exact goWorker_eq_of_id hab
    · intro a ha hb
      obtain ⟨w, hw, hwa⟩ := List.mem_map.mp hb
      subst hwa
      exact h5 w (List.mem_append_left _ hw) ha
  · intro i hi
    rcases List.mem_append.mp hi with hi | hi
    · exact h2 i hi
    · obtain ⟨w, hw, hwa⟩ := List.mem_map.mp hi
      subst hwa
      exact h4 w (List.mem_append_left _ hw)
  · simpa using hnd.2.1
  · intro w hw
    exact h4 w (List.mem_append_right _ (by simpa using hw))
  · intro w hw hmem
    have hw1 : w ∈ s.loan := by simpa using hw
    rcases List.mem_append.mp hmem with hm | hm
    · exact h5 w (List.mem_append_right _ hw1) hm
    · obtain ⟨u, hu, hua⟩ := List.mem_map.mp hm
      have := goWorker_eq_of_id hua
      subst this
      exact hnd.2.2 hu hw1
  · exact h6
  · intro hcc
    simp at hcc
  · exact h8
  · exact h9
  · intro _
    exact le_refl _
  · intro hc
    simpa using h9 hc
  · intro _ ho
    rw [hst] at ho
    simp [PoolOpen, PoolClose] at ho
  · intro _ ho
    rw [hst] at ho
    simp [PoolOpen, PoolClose] at ho
  · intro _ _ _
    exact ⟨rfl, rfl⟩
  · intro _
    trivial
  · exact isInt32_zero

theorem Inv_step (s s1 : Sys) (e : Event) (hinv : Inv s) (hen : s.enabled e = true)
    (h : s.step e = Except.ok s1) : Inv s1 := by
  cases e with
  | getWorker => exact Inv_getWorker s s1 hinv h
  | putWorker w =>
    exact Inv_putWorker s s1 w hinv (by simpa [Sys.enabled] using hen) h
  | fault w =>
    exact Inv_fault s s1 w hinv (by simpa [Sys.enabled] using hen) h
  | closeCAS => exact Inv_closeCAS s s1 hinv h
  | storeClose => exact Inv_storeClose s s1 hinv (by simpa [Sys.enabled] using hen) h

theorem Reachable.inv {s : Sys} (h : Reachable s) : Inv s := by
  induction h with
  | init cap isBlock rt0 s hcap hrt hs => exact Inv_init cap isBlock rt0 s hcap hrt hs
  | step s e s1 _ hen hs ih => exact Inv_step s s1 e ih hen hs

theorem Reachable.run {s : Sys} (h : Reachable s) (es : List Event) (s1 : Sys)
    (hr : s.run es = some (Except.ok s1)) : Reachable s1 := by
  induction es generalizing s with
  | nil =>
    simp only [Sys.run, pure, Except.pure, Option.some.injEq, Except.ok.injEq] at hr
    subst hr
    exact h
  | cons e es ih =>
    unfold Sys.run at hr
    by_cases hen : s.enabled e = true
    · simp only [hen, if_true] at hr
      cases hs : s.step e with
      | error x => rw [hs] at hr; simp [throw, throwThe, MonadExceptOf.throw] at hr
      | ok s2 =>
        rw [hs] at hr
        exact ih (Reachable.step s e s2 h hen hs) hr
    · simp [hen] at hr

theorem rtEmpty_WF : rtEmpty.WF := by
  simp [Runtime.WF, rtEmpty]

theorem sysOneOnLoan_reachable : Reachable sysOneOnLoan := by
  have h0 : Reachable _ :=
    Reachable.init 2 false rtEmpty _ (by decide) rtEmpty_WF rfl
  exact h0.run [Event.getWorker] sysOneOnLoan rfl

theorem sysCap1Busy_reachable : Reachable sysCap1Busy := by
  have h0 : Reachable _ :=
    Reachable.init 1 false rtEmpty _ (by decide) rtEmpty_WF rfl
  exact h0.run [Event.getWorker] sysCap1Busy rfl

theorem stateIsClosed_open : stateIsClosed PoolOpen = false := by
  decide

theorem stateIsClosed_close : stateIsClosed PoolClose = true := by
  decide

/-- On an open bounded pool in a state that satisfies the invariant, `getWorker` with
`runningCount < cap` pops the last idle worker, which has not been stopped. -/
theorem getWorker_pop (s : Sys) (hinv : Inv s) (hopen : s.state = PoolOpen)
    (hb : s.store.cap ≠ noLimitCap) (hlt : s.store.runningCount < s.store.cap) :
    ∃ ys w, s.store.workers = ys ++ [w] ∧ w.id ∉ s.rt.closedCh ∧
      s.store.getWorker s.state s.rt = Except.ok (Acquired.worker w,
        { s.store with runningCount := s.store.runningCount + 1, workers := ys }, s.rt) := by
  have hsum := hinv.open_sum hb hopen
  have hrc0 := hinv.rc_nonneg hb
  have hcap := hinv.cap_int32
  rcases getLast?_cases s.store.workers with hnil | ⟨ys, w, hys⟩
  · rw [hnil] at hsum
    simp at hsum
    omega
  · refine ⟨ys, w, hys, ?_, ?_⟩
    · apply hinv.live w
      rw [hys]
      simp
    · have hrc : atomic.AddInt32 s.store.runningCount 1 = s.store.runningCount + 1 := by
        apply AddInt32_succ hrc0
        unfold isInt32 at hcap
        omega
      unfold capacityStore.getWorker
      simp only [hb, if_false, hopen, stateIsClosed_open, Bool.not_false, if_true,
        capacityStore.getRunningCount, hlt, capacityStore.incrRunningCount, hrc, hys,
        List.getLast?_concat, List.dropLast_concat, pure, Except.pure]

/-- On an open bounded pool in a state that satisfies the invariant, `getWorker` with
`runningCount < cap` false finds `runningCount = cap` and hands out nothing. -/
theorem getWorker_full (s : Sys) (hinv : Inv s) (hopen : s.state = PoolOpen)
    (hb : s.store.cap ≠ noLimitCap) (hge : ¬ s.store.runningCount < s.store.cap) :
    s.store.runningCount = s.store.cap ∧
      s.store.getWorker s.state s.rt = Except.ok
        (if s.store.isBlock then Acquired.wait else Acquired.nil, s.store, s.rt) := by
  have hsum := hinv.open_sum hb hopen
  refine ⟨by omega, ?_⟩
  unfold capacityStore.getWorker
  simp only [hb, if_false, hopen, stateIsClosed_open, Bool.not_false, if_true,
    capacityStore.getRunningCount, hge, pure, Except.pure]
  cases s.store.isBlock <;> simp

theorem sysUnlimitedClosed_reachable : Reachable sysUnlimitedClosed := by
  have h0 : Reachable _ :=
    Reachable.init noLimitCap false rtEmpty _ (by decide) rtEmpty_WF rfl
  exact h0.run [Event.closeCAS, Event.storeClose] sysUnlimitedClosed rfl

/-- A bounded store whose pool is closed hands out nothing and is left as it is. -/
theorem getWorker_closed_bounded (store : capacityStore) (rt : Runtime)
    (hb : store.cap ≠ noLimitCap) :
    store.getWorker PoolClose rt = Except.ok (Acquired.nil, store, rt) := by
  unfold capacityStore.getWorker
  simp only [hb, if_false, stateIsClosed_close, Bool.not_true, Bool.false_eq_true, pure,
    Except.pure]

/-- What `RunTaskWithRet` hands to the worker and returns when it succeeds. -/
theorem RunTaskWithRet_ok_inv {α : Type} (p p1 : goPool) (f : Unit → α) (rt rt1 : Runtime)
    (retCh : Chan α) (w : goWorker) (t : Chan α → Except GoPanic (Sent α))
    (h : p.RunTaskWithRet f rt = Except.ok (SubmitRet.ok retCh w t, p1, rt1)) :
    retCh = Chan.make 1 ∧ t = taskWithRet_f f := by
  unfold goPool.RunTaskWithRet at h
  by_cases hcl : p.IsClosed = true
  · simp [hcl, pure, Except.pure] at h
  · simp only [hcl, Bool.false_eq_true, if_false] at h
    unfold goPool.RunTaskWithRet_acquire at h
    cases hw : p.workers with
    | none => simp [hw, throw, throwThe, MonadExceptOf.throw] at h
    | some store =>
      simp only [hw, bind, Except.bind] at h
      cases hg : store.getWorker p.state rt with
      | error x => simp [hg] at h
      | ok r =>
        obtain ⟨a, store1, rt2⟩ := r
        simp only [hg] at h
        cases a with
        | wait => simp [pure, Except.pure] at h
        | nil => simp [pure, Except.pure] at h
        | worker v =>
          simp only at h
          cases hsub : v.submitTask rt2 with
          | error x => simp [hsub] at h
          | ok u =>
            simp only [hsub, pure, Except.pure, Except.ok.injEq, Prod.mk.injEq,
              SubmitRet.ok.injEq] at h
            exact ⟨h.1.1.symm, h.1.2.2.symm⟩

theorem sysUnlimitedStart_reachable : Reachable sysUnlimitedStart :=
  Reachable.init noLimitCap false rtEmpty _ (by decide) rtEmpty_WF rfl

theorem sysUnlimitedNegative_reachable : Reachable sysUnlimitedNegative :=
  sysUnlimitedStart_reachable.run
    [Event.getWorker, Event.closeCAS, Event.storeClose, Event.putWorker ⟨0⟩]
    sysUnlimitedNegative rfl

/-- In a reachable state of a bounded pool the running count lies between 0 and the
capacity. -/
theorem runningCount_bounded (s : Sys) (h : Reachable s) (hb : s.store.cap ≠ noLimitCap) :
    0 ≤ s.store.runningCount ∧ s.store.runningCount ≤ s.store.cap := by
  have h0 := h.inv.rc_nonneg hb
  have h1 := h.inv.sum_le hb
  constructor
  · exact h0
  · omega

theorem unlimitedAfter_step (n : Nat) (hn : n < 2147483647) :
    (unlimitedAfter n).step Event.getWorker = Except.ok (unlimitedAfter (n + 1)) := by
  have hrc : atomic.AddInt32 (n : Int) 1 = ((n + 1 : Nat) : Int) := by
    rw [AddInt32_succ (by omega) (by omega)]
    push_cast
    rfl
  simp only [Sys.step, unlimitedAfter, capacityStore.getWorker, if_true,
    capacityStore.incrRunningCount, newWorker, hrc, bind, Except.bind, pure, Except.pure,
    loanOf]

theorem unlimitedAfter_reachable (n : Nat) (hn : n ≤ 2147483647) :
    Reachable (unlimitedAfter n) := by
  induction n with
  | zero => exact sysUnlimitedStart_reachable
  | succ n ih =>
    exact Reachable.step _ Event.getWorker _ (ih (by omega)) rfl
      (unlimitedAfter_step n (by omega))

/-- On an open bounded pool with a worker on loan, in a state that satisfies the
invariant, `putWorker` appends the worker to the idle ones and lowers the count by 1. -/
theorem putWorker_open_bounded (s : Sys) (hinv : Inv s) (hopen : s.state = PoolOpen)
    (hb : s.store.cap ≠ noLimitCap) (hloan : s.loan ≠ []) (v : goWorker) (rt1 : Runtime) :
    s.store.putWorker s.state v rt1 = Except.ok
      ({ s.store with runningCount := s.store.runningCount - 1,
                      workers := s.store.workers ++ [v] }, rt1) := by
  have hsum := hinv.open_sum hb hopen
  have hrcl := hinv.open_rc hb hopen
  have hcap := hinv.cap_int32
  have hpos : 0 < s.loan.length := List.length_pos.mpr hloan
  have hwrap : wrapInt32 (s.store.workers.length : Int) = s.store.workers.length := by
    apply wrapInt32_eq_self
    unfold isInt32 at hcap ⊢
    omega
  have hlt : (s.store.workers.length : Int) < s.store.cap := by omega
  have hrc : atomic.AddInt32 s.store.runningCount (-1) = s.store.runningCount - 1 := by
    apply AddInt32_pred
    · omega
    · unfold isInt32 at hcap
      omega
  unfold capacityStore.putWorker
  simp only [hb, if_false, hopen, stateIsClosed_open, Bool.false_eq_true, hwrap, hlt,
    if_true, pure, Except.pure, capacityStore.decrRunningCount, hrc]

/-- No enabled step panics in a state that satisfies the invariant. -/
theorem Inv_step_ok (s : Sys) (hinv : Inv s) (e : Event) (hen : s.enabled e = true) :
    ∃ s1, s.step e = Except.ok s1 := by
  have hstate : s.state ≠ PoolOpen → s.state = PoolClose := by
    intro hne
    rcases hinv.state_ok with ho | hc
    · exact absurd ho hne
    · exact hc
  have hput : ∀ (w v : goWorker) (rt1 : Runtime), w ∈ s.loan → v.id ∉ rt1.closedCh →
      ∃ r, s.store.putWorker s.state v rt1 = Except.ok r := by
    intro w v rt1 hw hv
    by_cases hu : s.store.cap = noLimitCap
    · simp only [capacityStore.putWorker, hu, if_true, pure, Except.pure]
      exact ⟨_, rfl⟩
    · by_cases hopen : s.state = PoolOpen
      · exact ⟨_, putWorker_open_bounded s hinv hopen hu (List.ne_nil_of_mem hw) v rt1⟩
      · simp only [capacityStore.putWorker, hu, if_false, hstate hopen, stateIsClosed_close,
          if_true, goWorker.stop, hv, bind, Except.bind, pure, Except.pure]
        exact ⟨_, rfl⟩
  cases e with
  | getWorker =>
    by_cases hu : s.store.cap = noLimitCap
    · simp only [Sys.step, capacityStore.getWorker, hu, if_true, newWorker, bind,
        Except.bind, pure, Except.pure]
      exact ⟨_, rfl⟩
    · by_cases hopen : s.state = PoolOpen
      · by_cases hlt : s.store.runningCount < s.store.cap
        · obtain ⟨ys, w, _, _, hg⟩ := getWorker_pop s hinv hopen hu hlt
          simp only [Sys.step, hg, bind, Except.bind, pure, Except.pure]
          exact ⟨_, rfl⟩
        · have hg := (getWorker_full s hinv hopen hu hlt).2
          simp only [Sys.step, hg, bind, Except.bind, pure, Except.pure]
          cases s.store.isBlock
          · exact ⟨_, rfl⟩
          · exact ⟨_, rfl⟩
      · have hg := getWorker_closed_bounded s.store s.rt hu
        rw [← hstate hopen] at hg
        simp only [Sys.step, hg, bind, Except.bind, pure, Except.pure]
        exact ⟨_, rfl⟩
  | putWorker w =>
    have hw : w ∈ s.loan := by simpa [Sys.enabled] using hen
    obtain ⟨r, hr⟩ := hput w w s.rt hw (hinv.live w (List.mem_append_right _ hw))
    simp only [Sys.step, goWorker.run_task, hr, bind, Except.bind, pure, Except.pure]
    exact ⟨_, rfl⟩
  | fault w =>
    have hw : w ∈ s.loan := by simpa [Sys.enabled] using hen
    have hfresh : (newWorker s.rt).1.id ∉ (newWorker s.rt).2.closedCh := by
      intro hm
      have := hinv.rt_alloc _ hm
      simp [newWorker] at this
    obtain ⟨r, hr⟩ := hput w _ _ hw hfresh
    simp only [Sys.step, goWorker.run_task, hr, bind, Except.bind, pure, Except.pure]
    exact ⟨_, rfl⟩
  | closeCAS =>
    simp only [Sys.step, pure, Except.pure]
    exact ⟨_, rfl⟩
  | storeClose =>
    have hnd := List.nodup_append.mp hinv.nodup
    have hstop := stopAll_ok s.store.workers s.rt hnd.1
      (fun w hw => hinv.live w (List.mem_append_left _ hw))
    simp only [Sys.step, capacityStore.close, hstop, bind, Except.bind, pure, Except.pure]
    exact ⟨_, rfl⟩

/-- No enabled step panics in a reachable state. -/
theorem Reachable.no_panic {s : Sys} (h : Reachable s) (e : Event)
    (hen : s.enabled e = true) : ∃ s1, s.step e = Except.ok s1 :=
  Inv_step_ok s h.inv e hen

/-- A bounded store whose pool is closed does nothing in `putWorker` but stop the
worker. -/
theorem putWorker_closed_bounded (store : capacityStore) (w : goWorker) (rt : Runtime)
    (hb : store.cap ≠ noLimitCap) :
    store.putWorker PoolClose w rt = (w.stop rt).map (fun rt1 => (store, rt1)) := by
  unfold capacityStore.putWorker
  simp only [hb, if_false, stateIsClosed_close, if_true, bind, Except.bind, pure, Except.pure]
  cases w.stop rt <;> rfl

/-- On an open bounded store with room in the idle slice and a running count between 1
and the capacity, `putWorker(w)` followed by `getWorker` gives `w` and the old store. -/
theorem putWorker_getWorker_roundtrip (store : capacityStore) (w : goWorker) (rt : Runtime)
    (hcap : isInt32 store.cap) (hb : store.cap ≠ noLimitCap)
    (hlen : (store.workers.length : Int) < store.cap)
    (hrc1 : 1 ≤ store.runningCount) (hrc2 : store.runningCount ≤ store.cap) :
    store.putWorker PoolOpen w rt = Except.ok
      ({ store with runningCount := store.runningCount - 1,
                    workers := store.workers ++ [w] }, rt) ∧
    capacityStore.getWorker
        { store with runningCount := store.runningCount - 1,
                     workers := store.workers ++ [w] } PoolOpen rt
      = Except.ok (Acquired.worker w, store, rt) := by
  have hwrap : wrapInt32 (store.workers.length : Int) = store.workers.length := by
    apply wrapInt32_eq_self
    unfold isInt32 at hcap ⊢
    omega
  have hdec : atomic.AddInt32 store.runningCount (-1) = store.runningCount - 1 := by
    apply AddInt32_pred
    · omega
    · unfold isInt32 at hcap
      omega
  have hinc : atomic.AddInt32 (store.runningCount - 1) 1 = store.runningCount := by
    rw [AddInt32_succ (by omega) (by unfold isInt32 at hcap; omega)]
    omega
  have hlt : store.runningCount - 1 < store.cap := by omega
  constructor
  · unfold capacityStore.putWorker
    simp only [hb, if_false, stateIsClosed_open, Bool.false_eq_true, hwrap, hlen,
      if_true, pure, Except.pure, capacityStore.decrRunningCount, hdec]
  · unfold capacityStore.getWorker
    simp only [hb, if_false, stateIsClosed_open, Bool.not_false, if_true,
      capacityStore.getRunningCount, hlt, capacityStore.incrRunningCount, hinc,
      List.getLast?_concat, List.dropLast_concat, pure, Except.pure]

/-- A worker that `getWorker` returns in a state that satisfies the invariant has an open
task channel. -/
theorem getWorker_worker_live (s : Sys) (hinv : Inv s) (w : goWorker)
    (store1 : capacityStore) (rt1 : Runtime)
    (hg : s.store.getWorker s.state s.rt = Except.ok (Acquired.worker w, store1, rt1)) :
    w.id ∉ rt1.closedCh := by
  by_cases hu : s.store.cap = noLimitCap
  · unfold capacityStore.getWorker at hg
    simp only [hu, if_true, newWorker, pure, Except.pure, Except.ok.injEq, Prod.mk.injEq,
      Acquired.worker.injEq] at hg
    obtain ⟨hw, _, hrt⟩ := hg
    subst hw hrt
    intro hm
    have := hinv.rt_alloc _ hm
    simp at this
  · by_cases hopen : s.state = PoolOpen
    · by_cases hlt : s.store.runningCount < s.store.cap
      · obtain ⟨ys, v, _, hlive, hg1⟩ := getWorker_pop s hinv hopen hu hlt
        rw [hg1] at hg
        simp only [Except.ok.injEq, Prod.mk.injEq, Acquired.worker.injEq] at hg
        obtain ⟨hw, _, hrt⟩ := hg
        subst hw hrt
        exact hlive
      · have hg1 := (getWorker_full s hinv hopen hu hlt).2
        rw [hg1] at hg
        cases hb : s.store.isBlock <;> simp [hb] at hg
    · have hcl : s.state = PoolClose := by
        rcases hinv.state_ok with ho | hc
        · exact absurd ho hopen
        · exact hc
      have hg1 := getWorker_closed_bounded s.store s.rt hu
      rw [← hcl, hg] at hg1
      simp at hg1

theorem sysMidClose_reachable : Reachable sysMidClose := by
  have h0 : Reachable _ :=
    Reachable.init 2 false rtEmpty _ (by decide) rtEmpty_WF rfl
  exact h0.run [Event.getWorker, Event.closeCAS, Event.putWorker ⟨1⟩] sysMidClose rfl

theorem sysClosedAll_reachable : Reachable sysClosedAll := by
  have h0 : Reachable _ :=
    Reachable.init 2 false rtEmpty _ (by decide) rtEmpty_WF rfl
  exact h0.run [Event.getWorker, Event.closeCAS, Event.storeClose, Event.putWorker ⟨1⟩]
    sysClosedAll rfl

/-- With the channel left out, `putWorkerCh` is `putWorker`. -/
theorem putWorkerCh_fst (store : capacityStore) (state : Int) (w : goWorker) (rt : Runtime)
    (parked : Nat) :
    (store.putWorkerCh state w rt parked).map (fun r => (r.1, r.2.1))
      = store.putWorker state w rt := by
  unfold capacityStore.putWorkerCh capacityStore.putWorker
  by_cases hu : store.cap = noLimitCap
  · simp only [hu, if_true]
    rfl
  · by_cases hcl : stateIsClosed state = true
    · simp only [hu, if_false, hcl, if_true, bind, Except.bind]
      cases w.stop rt <;> rfl
    · simp only [hu, if_false, hcl, Bool.false_eq_true]
      rfl

/-! ## The claims -/

/-- C1: in every state of a bounded pool (capacity other than -1) that is reachable from
`newWorkerStore` by `getWorker`, `putWorker` of a worker on loan, fault replacement and
close steps, `runningCount + len(workers) <= cap`. -/
theorem C1_capacity_invariant (s : Sys) (h : Reachable s) (hb : s.store.cap ≠ noLimitCap) :
    s.store.runningCount + s.store.workers.length ≤ s.store.cap :=
  h.inv.sum_le hb

theorem C1_capacity_invariant_witness :
    Reachable sysOneOnLoan ∧ sysOneOnLoan.store.cap ≠ noLimitCap ∧
      sysOneOnLoan.store.runningCount + sysOneOnLoan.store.workers.length
        ≤ sysOneOnLoan.store.cap :=
  ⟨sysOneOnLoan_reachable, by decide,
    C1_capacity_invariant sysOneOnLoan sysOneOnLoan_reachable (by decide)⟩

/-- C2: once `Close` has returned on a pool, `IsClosed` is true; from then on, whatever
else has happened to the store and the heap, `RunTask` and `RunTaskWithRet` return
`ErrorPoolClosed` (the latter with a nil channel) and leave the pool, its running count
and the heap as they are, and a further `Close` changes nothing. -/
theorem C2_closed_pool_rejects (p p1 : goPool) (rt rt1 : Runtime)
    (hst : p.state = PoolOpen ∨ p.state = PoolClose)
    (hclose : p.Close rt = Except.ok (p1, rt1)) :
    p1.IsClosed = true ∧
    ∀ (p2 : goPool) (rt2 : Runtime), p2.state = p1.state →
      p2.IsClosed = true ∧
      (∀ (τ : Type) (f : τ),
        p2.RunTask f rt2 = Except.ok (Submit.err ErrorPoolClosed, p2, rt2)) ∧
      (∀ (α : Type) (f : Unit → α),
        p2.RunTaskWithRet f rt2 = Except.ok (SubmitRet.err ErrorPoolClosed, p2, rt2)) ∧
      p2.Close rt2 = Except.ok (p2, rt2) := by
  have hp1 : p1.state = PoolClose := by
    unfold goPool.Close atomic.CompareAndSwapInt32 at hclose
    rcases hst with ho | hc
    · simp only [ho, if_true] at hclose
      cases hw : p.workers with
      | none => simp [hw, throw, throwThe, MonadExceptOf.throw] at hclose
      | some store =>
        simp only [hw, bind, Except.bind] at hclose
        cases hcl : store.close rt with
        | error x => simp [hcl] at hclose
        | ok r =>
          simp only [hcl, pure, Except.pure, Except.ok.injEq, Prod.mk.injEq] at hclose
          rw [← hclose.1]
    · have hne : ¬ p.state = PoolOpen := by
        rw [hc]
        simp [PoolOpen, PoolClose]
      simp only [hne, if_false, Bool.false_eq_true, pure, Except.pure, Except.ok.injEq,
        Prod.mk.injEq] at hclose
      rw [← hclose.1]
      exact hc
  refine ⟨by simp [goPool.IsClosed, stateIsClosed, hp1], ?_⟩
  intro p2 rt2 h2
  have hp2 : p2.state = PoolClose := h2.trans hp1
  have hcl2 : p2.IsClosed = true := by simp [goPool.IsClosed, stateIsClosed, hp2]
  refine ⟨hcl2, ?_, ?_, ?_⟩
  · intro τ f
    simp [goPool.RunTask, hcl2, pure, Except.pure]
  · intro α f
    simp [goPool.RunTaskWithRet, hcl2, pure, Except.pure]
  · have hne : ¬ p2.state = PoolOpen := by
      rw [hp2]
      simp [PoolOpen, PoolClose]
    simp [goPool.Close, atomic.CompareAndSwapInt32, hne, pure, Except.pure]

theorem C2_closed_pool_rejects_witness :
    (poolCap2.state = PoolOpen ∨ poolCap2.state = PoolClose) ∧
    poolCap2.Close { nextWorker := 2, closedCh := [] }
      = Except.ok (poolCap2Closed, { nextWorker := 2, closedCh := [0, 1] }) ∧
    poolCap2Closed.IsClosed = true ∧
    poolCap2Closed.RunTask () { nextWorker := 2, closedCh := [0, 1] }
      = Except.ok (Submit.err ErrorPoolClosed, poolCap2Closed,
          { nextWorker := 2, closedCh := [0, 1] }) :=
  have h := C2_closed_pool_rejects poolCap2 poolCap2Closed
    { nextWorker := 2, closedCh := [] } { nextWorker := 2, closedCh := [0, 1] }
    (Or.inl rfl) rfl
  ⟨Or.inl rfl, rfl, h.1, (h.2 poolCap2Closed _ rfl).2.1 Unit ()⟩

/-- C3: on an open, bounded, non-blocking pool in a reachable state, `RunTask` returns
`ErrorPoolArriveCapacity` exactly when `runningCount = cap`, and then the pool (running
count and idle workers) and the heap are unchanged; on a pool of capacity 1 it does so
while the single worker is on loan, and succeeds once no worker is on loan. -/
theorem C3_at_capacity_error (s : Sys) (h : Reachable s) (hopen : s.state = PoolOpen)
    (hb : s.store.cap ≠ noLimitCap) (hnb : s.store.isBlock = false) (τ : Type) (f : τ) :
    ((∃ p1 rt1, s.pool.RunTask f s.rt
          = Except.ok (Submit.err ErrorPoolArriveCapacity, p1, rt1))
        ↔ s.store.runningCount = s.store.cap) ∧
    (s.store.runningCount = s.store.cap →
      s.pool.RunTask f s.rt = Except.ok (Submit.err ErrorPoolArriveCapacity, s.pool, s.rt)) ∧
    (s.store.cap = 1 →
      (s.loan ≠ [] →
        s.pool.RunTask f s.rt
          = Except.ok (Submit.err ErrorPoolArriveCapacity, s.pool, s.rt)) ∧
      (s.loan = [] → ∃ w p1, s.pool.RunTask f s.rt = Except.ok (Submit.ok w f, p1, s.rt))) := by
  have hinv := h.inv
  have hnc : s.pool.IsClosed = false := by
    simp [goPool.IsClosed, Sys.pool, hopen, stateIsClosed_open]
  have hfull : s.store.runningCount = s.store.cap →
      s.pool.RunTask f s.rt
        = Except.ok (Submit.err ErrorPoolArriveCapacity, s.pool, s.rt) := by
    intro heq
    have hge : ¬ s.store.runningCount < s.store.cap := by omega
    have hg := (getWorker_full s hinv hopen hb hge).2
    simp only [hnb, Bool.false_eq_true, if_false] at hg
    unfold goPool.RunTask goPool.RunTask_acquire
    simp only [hnc, Bool.false_eq_true, if_false]
    simp only [Sys.pool, hg, bind, Except.bind, pure, Except.pure]
  have hfree : s.store.runningCount ≠ s.store.cap →
      ∃ w p1, s.pool.RunTask f s.rt = Except.ok (Submit.ok w f, p1, s.rt) := by
    intro hne
    have hlt : s.store.runningCount < s.store.cap := by
      have := hinv.sum_le hb
      omega
    obtain ⟨ys, w, _, hlive, hg⟩ := getWorker_pop s hinv hopen hb hlt
    have hrun : s.pool.RunTask f s.rt = Except.ok (Submit.ok w f,
        ({ s.pool with workers := some ({ s.store with
            runningCount := s.store.runningCount + 1, workers := ys } : capacityStore) }
          : goPool), s.rt) := by
      unfold goPool.RunTask goPool.RunTask_acquire
      simp only [hnc, Bool.false_eq_true, if_false]
      simp only [Sys.pool, hg, bind, Except.bind, pure, Except.pure, goWorker.submitTask,
        hlive, if_false]
    exact ⟨w, _, hrun⟩
  refine ⟨⟨?_, fun heq => ⟨_, _, hfull heq⟩⟩, hfull, ?_⟩
  · rintro ⟨p1, rt1, herr⟩
    by_contra hne
    obtain ⟨w, p2, hok⟩ := hfree hne
    rw [hok] at herr
    simp at herr
  · intro hcap1
    have hrc := hinv.open_rc hb hopen
    constructor
    · intro hloan
      apply hfull
      have hpos : 0 < s.loan.length := List.length_pos.mpr hloan
      have := hinv.sum_le hb
      omega
    · intro hloan
      apply hfree
      rw [hloan] at hrc
      simp at hrc
      omega

theorem C3_at_capacity_error_witness :
    Reachable sysCap1Busy ∧ sysCap1Busy.state = PoolOpen ∧
    sysCap1Busy.store.cap ≠ noLimitCap ∧ sysCap1Busy.store.isBlock = false ∧
    sysCap1Busy.pool.RunTask () sysCap1Busy.rt
      = Except.ok (Submit.err ErrorPoolArriveCapacity, sysCap1Busy.pool, sysCap1Busy.rt) :=
  ⟨sysCap1Busy_reachable, rfl, by decide, rfl,
    (C3_at_capacity_error sysCap1Busy sysCap1Busy_reachable rfl (by decide) rfl Unit ()).2.1
      rfl⟩

/-- C4: the channel that a successful `RunTaskWithRet(fn)` returns yields, once the task
has run, exactly the value `fn` returned; but the task does not close the channel: it
is still open after that value, and a second receive blocks. -/
theorem C4_result_channel_left_open {α : Type} (p p1 : goPool) (f : Unit → α)
    (rt rt1 : Runtime) (retCh : Chan α) (w : goWorker)
    (t : Chan α → Except GoPanic (Sent α))
    (h : p.RunTaskWithRet f rt = Except.ok (SubmitRet.ok retCh w t, p1, rt1)) :
    ∃ ch1 ch2, t retCh = Except.ok (Sent.done ch1) ∧
      ch1.recv = (Recv.value (f ()), ch2) ∧
      ch2.closed = false ∧ ch2.recv = (Recv.block, ch2) := by
  obtain ⟨hch, ht⟩ := RunTaskWithRet_ok_inv p p1 f rt rt1 retCh w t h
  subst hch ht
  refine ⟨{ cap := 1, buf := [f ()], closed := false },
    { cap := 1, buf := [], closed := false }, ?_, ?_, rfl, ?_⟩
  · simp [taskWithRet_f, Chan.send, Chan.make, pure, Except.pure]
  · simp [Chan.recv]
  · simp [Chan.recv]

theorem C4_result_channel_left_open_witness :
    poolCap2.RunTaskWithRet (fun _ => (7 : Nat)) { nextWorker := 2, closedCh := [] }
      = Except.ok (SubmitRet.ok (Chan.make 1) ⟨1⟩ (taskWithRet_f (fun _ => (7 : Nat))),
          poolCap2Busy,
          { nextWorker := 2, closedCh := [] }) ∧
    ∃ ch1 ch2, taskWithRet_f (fun _ => (7 : Nat)) (Chan.make 1) = Except.ok (Sent.done ch1) ∧
      ch1.recv = (Recv.value 7, ch2) ∧ ch2.closed = false ∧ ch2.recv = (Recv.block, ch2) :=
  ⟨rfl, C4_result_channel_left_open poolCap2 poolCap2Busy (fun _ => (7 : Nat))
    { nextWorker := 2, closedCh := [] } { nextWorker := 2, closedCh := [] } (Chan.make 1)
    ⟨1⟩ (taskWithRet_f (fun _ => (7 : Nat))) rfl⟩

/-- C5: when a bounded pool that was open at the check of `RunTask` is closed before the
store's `getWorker` runs, the rest of `RunTask` and of `RunTaskWithRet` returns
`ErrorPoolArriveCapacity`, not `ErrorPoolClosed`; so does the retry of a blocking
`getWorker` that is woken once the pool is closed. -/
theorem C5_closed_mid_call_reports_capacity (p p1 : goPool) (store : capacityStore)
    (rt rt1 : Runtime) (hw : p.workers = some store) (hb : store.cap ≠ noLimitCap)
    (hopen : p.state = PoolOpen) (hclose : p.Close rt = Except.ok (p1, rt1)) :
    (∀ (τ : Type) (f : τ), p.RunTask f rt = p.RunTask_acquire f rt) ∧
    (∀ (τ : Type) (f : τ),
      p1.RunTask_acquire f rt1
        = Except.ok (Submit.err ErrorPoolArriveCapacity, p1, rt1)) ∧
    (∀ (α : Type) (f : Unit → α),
      p1.RunTaskWithRet_acquire f rt1
        = Except.ok (SubmitRet.err ErrorPoolArriveCapacity, p1, rt1)) ∧
    (store.isBlock = true → store.cap ≤ store.runningCount →
      ∀ (τ : Type) (f : τ), p.RunTask f rt = Except.ok (Submit.blocked, p, rt)) := by
  have hnc : p.IsClosed = false := by
    simp [goPool.IsClosed, hopen, stateIsClosed_open]
  obtain ⟨store1, hw1, hcap1, hst1⟩ :
      ∃ store1, p1.workers = some store1 ∧ store1.cap = store.cap ∧ p1.state = PoolClose := by
    unfold goPool.Close atomic.CompareAndSwapInt32 at hclose
    simp only [hopen, if_true, hw, bind, Except.bind] at hclose
    cases hcl : store.close rt with
    | error x => simp [hcl] at hclose
    | ok r =>
      simp only [hcl, pure, Except.pure, Except.ok.injEq, Prod.mk.injEq] at hclose
      unfold capacityStore.close at hcl
      simp only [bind, Except.bind] at hcl
      cases hsa : stopAll store.workers rt with
      | error x => simp [hsa] at hcl
      | ok rt2 =>
        simp only [hsa, pure, Except.pure, Except.ok.injEq] at hcl
        refine ⟨r.1, ?_, ?_, ?_⟩
        · rw [← hclose.1]
        · rw [← hcl]
        · rw [← hclose.1]
  have hb1 : store1.cap ≠ noLimitCap := by
    rw [hcap1]
    exact hb
  have hg := getWorker_closed_bounded store1 rt1 hb1
  refine ⟨?_, ?_, ?_, ?_⟩
  · intro τ f
    simp [goPool.RunTask, hnc]
  · intro τ f
    unfold goPool.RunTask_acquire
    simp only [hw1, hst1, hg, bind, Except.bind, pure, Except.pure]
    congr 3
    cases p1
    simp_all
  · intro α f
    unfold goPool.RunTaskWithRet_acquire
    simp only [hw1, hst1, hg, bind, Except.bind, pure, Except.pure]
    congr 3
    cases p1
    simp_all
  · intro hblk hfull τ f
    have hge : ¬ store.runningCount < store.cap := by omega
    unfold goPool.RunTask goPool.RunTask_acquire capacityStore.getWorker
    simp only [hnc, Bool.false_eq_true, if_false, hw, hb, hopen, stateIsClosed_open,
      Bool.not_false, if_true, capacityStore.getRunningCount, hge, hblk, bind, Except.bind,
      pure, Except.pure]
    congr 3
    cases p
    simp_all

theorem C5_closed_mid_call_reports_capacity_witness :
    poolCap2.workers = some storeCap2 ∧ storeCap2.cap ≠ noLimitCap ∧
    poolCap2.state = PoolOpen ∧
    poolCap2.Close { nextWorker := 2, closedCh := [] }
      = Except.ok (poolCap2Closed, { nextWorker := 2, closedCh := [0, 1] }) ∧
    poolCap2Closed.RunTask_acquire () { nextWorker := 2, closedCh := [0, 1] }
      = Except.ok (Submit.err ErrorPoolArriveCapacity, poolCap2Closed,
          { nextWorker := 2, closedCh := [0, 1] }) :=
  ⟨rfl, by decide, rfl, rfl,
    (C5_closed_mid_call_reports_capacity poolCap2 poolCap2Closed storeCap2
      { nextWorker := 2, closedCh := [] } { nextWorker := 2, closedCh := [0, 1] }
      rfl (by decide) rfl rfl).2.1 Unit ()⟩

/-- C6: a store of unlimited capacity hands out a worker although its pool is closed.
`NewPool(WithCapacity(-1))` gives `poolUnlimited`; a `RunTask` on it passes the check
of `IsClosed`; `Close` then returns; the rest of `RunTask` calls `getWorker`, which
returns the new worker 0 and raises the running count from 0 to 1, and the task is
handed to that worker. The closed unlimited store is a reachable state. The bounded
branch of `getWorker` tests `IsClosed` and returns nil for every closed bounded store. -/
theorem C6_unlimited_hands_out_after_close :
    NewPool [WithCapacity (-1)] rtEmpty = Except.ok (poolUnlimited, rtEmpty) ∧
    poolUnlimited.IsClosed = false ∧
    poolUnlimited.RunTask () rtEmpty = poolUnlimited.RunTask_acquire () rtEmpty ∧
    poolUnlimited.Close rtEmpty = Except.ok (poolUnlimitedClosed, rtEmpty) ∧
    poolUnlimitedClosed.IsClosed = true ∧
    poolUnlimitedClosed.RunTask_acquire () rtEmpty
      = Except.ok (Submit.ok ⟨0⟩ (), poolUnlimitedClosedBusy,
          { nextWorker := 1, closedCh := [] }) ∧
    Reachable sysUnlimitedClosed ∧ sysUnlimitedClosed.state = PoolClose ∧
    sysUnlimitedClosed.store.getWorker sysUnlimitedClosed.state sysUnlimitedClosed.rt
      = Except.ok (Acquired.worker ⟨0⟩,
          { cap := noLimitCap, runningCount := 1, isBlock := false, workers := [] },
          { nextWorker := 1, closedCh := [] }) ∧
    (∀ (store : capacityStore) (rt : Runtime), store.cap ≠ noLimitCap →
      store.getWorker PoolClose rt = Except.ok (Acquired.nil, store, rt)) :=
  ⟨rfl, rfl, rfl, rfl, rfl, rfl, sysUnlimitedClosed_reachable, rfl, rfl,
    fun store rt hb => getWorker_closed_bounded store rt hb⟩

/-- C7: `NewPool` without a `WithCapacity` option, with no option at all or with
`WithBlock` alone, builds a pool of capacity 0, not 1024: the store has no worker, and
`RunTask` on the pool built without options returns `ErrorPoolArriveCapacity`. -/
theorem C7_NewPool_without_capacity (rt : Runtime) (b : Bool) :
    NewPool [] rt = Except.ok
      ({ workers := some { cap := 0, runningCount := 0, isBlock := false, workers := [] },
         state := PoolOpen, cap := 0, isBlock := false }, rt) ∧
    NewPool [WithBlock b] rt = Except.ok
      ({ workers := some { cap := 0, runningCount := 0, isBlock := b, workers := [] },
         state := PoolOpen, cap := 0, isBlock := b }, rt) ∧
    goPool.RunTask
        { workers := some { cap := 0, runningCount := 0, isBlock := false, workers := [] },
          state := PoolOpen, cap := 0, isBlock := false } () rt
      = Except.ok (Submit.err ErrorPoolArriveCapacity,
          { workers := some { cap := 0, runningCount := 0, isBlock := false, workers := [] },
            state := PoolOpen, cap := 0, isBlock := false }, rt) :=
  ⟨rfl, rfl, rfl⟩

/-- C8: the running count can become negative: on an unlimited pool, after one
`getWorker`, a `Close` and then the return of the task on the worker handed out, a
reachable state, `RunningCount` is -1. -/
theorem C8_unlimited_count_negative_after_close :
    Sys.init noLimitCap false rtEmpty = Except.ok sysUnlimitedStart ∧
    sysUnlimitedStart.run
        [Event.getWorker, Event.closeCAS, Event.storeClose, Event.putWorker ⟨0⟩]
      = some (Except.ok sysUnlimitedNegative) ∧
    Reachable sysUnlimitedNegative ∧
    sysUnlimitedNegative.pool.RunningCount = some (-1) :=
  ⟨rfl, rfl, sysUnlimitedNegative_reachable, rfl⟩

/-- C9 as stated fails: the open unlimited pool with 2147483647 workers on loan is
reachable, and there `getWorker` wraps the running count to -2147483648 instead of
raising it by 1. -/
theorem C9_counterexample :
    Reachable (unlimitedAfter 2147483647) ∧
    (unlimitedAfter 2147483647).state = PoolOpen ∧
    (unlimitedAfter 2147483647).store.cap = noLimitCap ∧
    (unlimitedAfter 2147483647).store.runningCount = 2147483647 ∧
    (unlimitedAfter 2147483647).store.getWorker PoolOpen (unlimitedAfter 2147483647).rt
      = Except.ok (Acquired.worker ⟨2147483647⟩,
          { cap := noLimitCap, runningCount := -2147483648, isBlock := false, workers := [] },
          { nextWorker := 2147483648, closedCh := [] }) :=
  ⟨unlimitedAfter_reachable 2147483647 (le_refl _), rfl, rfl, rfl, rfl⟩

/-- C9, amended: in every reachable state of an open pool with unlimited capacity,
`getWorker` returns a newly allocated worker that is neither on loan nor stopped, so
`RunTask` and `RunTaskWithRet` succeed and never return `ErrorPoolArriveCapacity`; the
running count goes up by exactly 1 whenever it is below 2147483647. -/
theorem C9_unlimited_never_at_capacity (s : Sys) (h : Reachable s)
    (hopen : s.state = PoolOpen) (hu : s.store.cap = noLimitCap) :
    s.store.getWorker s.state s.rt = Except.ok (Acquired.worker ⟨s.rt.nextWorker⟩,
      s.store.incrRunningCount, { s.rt with nextWorker := s.rt.nextWorker + 1 }) ∧
    (⟨s.rt.nextWorker⟩ : goWorker) ∉ s.loan ∧ s.rt.nextWorker ∉ s.rt.closedCh ∧
    (∀ (τ : Type) (f : τ), s.pool.RunTask f s.rt = Except.ok
      (Submit.ok ⟨s.rt.nextWorker⟩ f,
        { s.pool with workers := some s.store.incrRunningCount },
        { s.rt with nextWorker := s.rt.nextWorker + 1 })) ∧
    (∀ (α : Type) (f : Unit → α), s.pool.RunTaskWithRet f s.rt = Except.ok
      (SubmitRet.ok (Chan.make 1) ⟨s.rt.nextWorker⟩ (taskWithRet_f f),
        { s.pool with workers := some s.store.incrRunningCount },
        { s.rt with nextWorker := s.rt.nextWorker + 1 })) ∧
    (s.store.runningCount < 2147483647 →
      s.store.incrRunningCount.runningCount = s.store.runningCount + 1) := by
  have hinv := h.inv
  have hnc : s.pool.IsClosed = false := by
    simp [goPool.IsClosed, Sys.pool, hopen, stateIsClosed_open]
  have hlive : s.rt.nextWorker ∉ s.rt.closedCh := by
    intro hm
    have := hinv.rt_alloc _ hm
    omega
  have hg : s.store.getWorker s.state s.rt = Except.ok (Acquired.worker ⟨s.rt.nextWorker⟩,
      s.store.incrRunningCount, { s.rt with nextWorker := s.rt.nextWorker + 1 }) := by
    unfold capacityStore.getWorker
    simp only [hu, if_true, newWorker, pure, Except.pure]
  refine ⟨hg, ?_, hlive, ?_, ?_, ?_⟩
  · intro hm
    have := hinv.alloc _ (List.mem_append_right _ hm)
    simp at this
  · intro τ f
    unfold goPool.RunTask goPool.RunTask_acquire
    simp only [hnc, Bool.false_eq_true, if_false]
    simp only [Sys.pool, hg, bind, Except.bind, pure, Except.pure, goWorker.submitTask,
      hlive, if_false]
  · intro α f
    unfold goPool.RunTaskWithRet goPool.RunTaskWithRet_acquire
    simp only [hnc, Bool.false_eq_true, if_false]
    simp only [Sys.pool, hg, bind, Except.bind, pure, Except.pure, goWorker.submitTask,
      hlive, if_false]
  · intro hlt
    have hr := hinv.rc_int32
    unfold isInt32 at hr
    simp only [capacityStore.incrRunningCount, atomic.AddInt32, wrapInt32]
    omega

theorem C9_unlimited_never_at_capacity_witness :
    Reachable sysUnlimitedStart ∧ sysUnlimitedStart.state = PoolOpen ∧
    sysUnlimitedStart.store.cap = noLimitCap ∧
    sysUnlimitedStart.store.getWorker sysUnlimitedStart.state sysUnlimitedStart.rt
      = Except.ok (Acquired.worker ⟨sysUnlimitedStart.rt.nextWorker⟩,
          sysUnlimitedStart.store.incrRunningCount,
          { sysUnlimitedStart.rt with nextWorker := sysUnlimitedStart.rt.nextWorker + 1 }) :=
  ⟨sysUnlimitedStart_reachable, rfl, rfl,
    (C9_unlimited_never_at_capacity sysUnlimitedStart sysUnlimitedStart_reachable rfl rfl).1⟩

/-- C10: on an open bounded pool in a reachable state, a task that panics on a worker
on loan with a value that `recover()` returns changes the store as a task that returns
does: the running count goes down by 1 and one worker is appended to the idle ones,
here a new worker that is neither idle, on loan nor stopped; the capacity invariant
still holds, and the next `RunTask` succeeds on that new worker and brings the pool
back to the state before the panic. But when `recover()` is nil, as for `panic(nil)`
before Go 1.21, the handler puts nothing back: the store is unchanged, the running
count is not lowered, and a non-blocking pool that was at capacity keeps returning
`ErrorPoolArriveCapacity`. -/
theorem C10_fault_replacement (s : Sys) (h : Reachable s) (hopen : s.state = PoolOpen)
    (hb : s.store.cap ≠ noLimitCap) (w : goWorker) (hw : w ∈ s.loan) :
    w.run_task TaskEnd.returned s.store s.state s.rt = Except.ok
      ({ s.store with runningCount := s.store.runningCount - 1,
                      workers := s.store.workers ++ [w] }, s.rt) ∧
    w.run_task TaskEnd.panicked s.store s.state s.rt = Except.ok
      ({ s.store with runningCount := s.store.runningCount - 1,
                      workers := s.store.workers ++ [⟨s.rt.nextWorker⟩] },
        { s.rt with nextWorker := s.rt.nextWorker + 1 }) ∧
    (⟨s.rt.nextWorker⟩ : goWorker) ∉ s.store.workers ∧
    (⟨s.rt.nextWorker⟩ : goWorker) ∉ s.loan ∧
    s.rt.nextWorker ∉ s.rt.closedCh ∧
    (s.store.runningCount - 1) + (s.store.workers ++ [goWorker.mk s.rt.nextWorker]).length
      ≤ s.store.cap ∧
    (∀ (τ : Type) (f : τ),
      goPool.RunTask
          { s.pool with
              workers := some { s.store with
                                  runningCount := s.store.runningCount - 1,
                                  workers := s.store.workers ++ [goWorker.mk s.rt.nextWorker] } }
          f { s.rt with nextWorker := s.rt.nextWorker + 1 }
        = Except.ok (Submit.ok ⟨s.rt.nextWorker⟩ f, s.pool,
            { s.rt with nextWorker := s.rt.nextWorker + 1 })) ∧
    w.run_task TaskEnd.recoverNil s.store s.state s.rt = Except.ok (s.store, s.rt) ∧
    1 ≤ s.store.runningCount ∧
    (s.store.runningCount = s.store.cap → s.store.isBlock = false →
      ∀ (τ : Type) (f : τ), s.pool.RunTask f s.rt
        = Except.ok (Submit.err ErrorPoolArriveCapacity, s.pool, s.rt)) := by
  have hinv := h.inv
  have hloan : s.loan ≠ [] := List.ne_nil_of_mem hw
  have hsum := hinv.open_sum hb hopen
  have hrcl := hinv.open_rc hb hopen
  have hcap := hinv.cap_int32
  have hpos : 0 < s.loan.length := List.length_pos.mpr hloan
  have hlive : s.rt.nextWorker ∉ s.rt.closedCh := by
    intro hm
    have := hinv.rt_alloc _ hm
    omega
  refine ⟨?_, ?_, ?_, ?_, hlive, ?_, ?_, rfl, by omega, ?_⟩
  · simp only [goWorker.run_task]
    exact putWorker_open_bounded s hinv hopen hb hloan w s.rt
  · simp only [goWorker.run_task, newWorker]
    exact putWorker_open_bounded s hinv hopen hb hloan _ _
  · intro hm
    have := hinv.alloc _ (List.mem_append_left _ hm)
    simp at this
  · intro hm
    have := hinv.alloc _ (List.mem_append_right _ hm)
    simp at this
  · simp only [List.length_append, List.length_singleton, Nat.cast_add, Nat.cast_one]
    omega
  · intro τ f
    have hlt : s.store.runningCount - 1 < s.store.cap := by omega
    have hrc : atomic.AddInt32 (s.store.runningCount - 1) 1 = s.store.runningCount := by
      rw [AddInt32_succ (by omega) (by unfold isInt32 at hcap; omega)]
      omega
    unfold goPool.RunTask goPool.RunTask_acquire capacityStore.getWorker
    simp only [goPool.IsClosed, Sys.pool, hopen, stateIsClosed_open, Bool.false_eq_true,
      if_false, hb, Bool.not_false, if_true, capacityStore.getRunningCount, hlt,
      capacityStore.incrRunningCount, hrc, List.getLast?_concat, List.dropLast_concat,
      bind, Except.bind, pure, Except.pure, goWorker.submitTask, hlive]
  · intro hfull hnb τ f
    have hge : ¬ s.store.runningCount < s.store.cap := by omega
    have hg := (getWorker_full s hinv hopen hb hge).2
    simp only [hnb, Bool.false_eq_true, if_false] at hg
    have hnc : s.pool.IsClosed = false := by
      simp [goPool.IsClosed, Sys.pool, hopen, stateIsClosed_open]
    unfold goPool.RunTask goPool.RunTask_acquire
    simp only [hnc, Bool.false_eq_true, if_false]
    simp only [Sys.pool, hg, bind, Except.bind, pure, Except.pure]

theorem C10_fault_replacement_witness :
    Reachable sysCap1Busy ∧ sysCap1Busy.state = PoolOpen ∧
    sysCap1Busy.store.cap ≠ noLimitCap ∧ (⟨0⟩ : goWorker) ∈ sysCap1Busy.loan ∧
    goWorker.run_task ⟨0⟩ TaskEnd.panicked sysCap1Busy.store sysCap1Busy.state sysCap1Busy.rt
      = Except.ok ({ cap := 1, runningCount := 0, isBlock := false, workers := [⟨1⟩] },
          { nextWorker := 2, closedCh := [] }) ∧
    goWorker.run_task ⟨0⟩ TaskEnd.recoverNil sysCap1Busy.store sysCap1Busy.state
        sysCap1Busy.rt
      = Except.ok (sysCap1Busy.store, sysCap1Busy.rt) ∧
    sysCap1Busy.store.runningCount = 1 ∧
    sysCap1Busy.pool.RunTask () sysCap1Busy.rt
      = Except.ok (Submit.err ErrorPoolArriveCapacity, sysCap1Busy.pool, sysCap1Busy.rt) :=
  have h := C10_fault_replacement sysCap1Busy sysCap1Busy_reachable rfl (by decide) ⟨0⟩
    (by decide)
  ⟨sysCap1Busy_reachable, rfl, by decide, by decide, h.2.1, h.2.2.2.2.2.2.2.1, rfl,
    h.2.2.2.2.2.2.2.2.2 rfl rfl Unit ()⟩

/-- C12: for every `c`, `WithCapacity(c)` sets the capacity of the pool to 1024 when
`c <= 0` and `c != -1` and to `c` otherwise, so that -1 and every positive `c` are kept,
and it leaves the fields `workers`, `state` and `isBlock` as they are. -/
theorem C12_WithCapacity_sets_cap (c : Int) (p : goPool) :
    (WithCapacity c p).cap = (if c ≤ 0 ∧ c ≠ -1 then 1024 else c) ∧
    (WithCapacity (-1) p).cap = -1 ∧
    (∀ k : Int, 0 < k → (WithCapacity k p).cap = k) ∧
    (WithCapacity c p).workers = p.workers ∧
    (WithCapacity c p).state = p.state ∧
    (WithCapacity c p).isBlock = p.isBlock := by
  refine ⟨rfl, rfl, ?_, rfl, rfl, rfl⟩
  intro k hk
  have hk0 : ¬ (k ≤ 0 ∧ k ≠ noLimitCap) := by
    intro hc
    omega
  simp only [WithCapacity, hk0, if_false]

/-- C14: in every reachable state of a store, bounded ones in particular, `close()`
returns and leaves no idle worker and a running count of 0; the channels it closes are
those of the workers that were idle, in order; each of them had not been stopped before
and has now been stopped exactly once; and no worker on loan is stopped by the call. -/
theorem C14_close_stops_idle_once (s : Sys) (h : Reachable s) :
    ∃ rt1, s.store.close s.rt = Except.ok
        ({ s.store with workers := [], runningCount := 0 }, rt1) ∧
      rt1.closedCh = s.rt.closedCh ++ s.store.workers.map goWorker.id ∧
      rt1.nextWorker = s.rt.nextWorker ∧
      (∀ w ∈ s.store.workers, w.id ∉ s.rt.closedCh ∧ rt1.closedCh.count w.id = 1) ∧
      (∀ w ∈ s.loan, w.id ∉ s.store.workers.map goWorker.id ∧ w.id ∉ rt1.closedCh) := by
  have hinv := h.inv
  have hnd := List.nodup_append.mp hinv.nodup
  have hstop := stopAll_ok s.store.workers s.rt hnd.1
    (fun w hw => hinv.live w (List.mem_append_left _ hw))
  have hnd1 : (s.rt.closedCh ++ s.store.workers.map goWorker.id).Nodup := by
    rw [List.nodup_append]
    refine ⟨hinv.rt_nodup, hnd.1.map ?_, ?_⟩
    · intro a b hab
      exact goWorker_eq_of_id hab
    · intro a ha hm
      obtain ⟨w, hw, hwa⟩ := List.mem_map.mp hm
      subst hwa
      exact hinv.live w (List.mem_append_left _ hw) ha
  have hloan : ∀ w ∈ s.loan, w.id ∉ s.store.workers.map goWorker.id := by
    intro w hw hm
    obtain ⟨u, hu, hua⟩ := List.mem_map.mp hm
    have := goWorker_eq_of_id hua
    subst this
    exact hnd.2.2 hu hw
  refine ⟨{ s.rt with closedCh := s.rt.closedCh ++ s.store.workers.map goWorker.id },
    ?_, rfl, rfl, ?_, ?_⟩
  · unfold capacityStore.close
    simp only [hstop, bind, Except.bind, pure, Except.pure]
  · intro w hw
    refine ⟨hinv.live w (List.mem_append_left _ hw), ?_⟩
    apply List.count_eq_one_of_mem hnd1
    exact List.mem_append_right _ (List.mem_map_of_mem _ hw)
  · intro w hw
    refine ⟨hloan w hw, ?_⟩
    intro hm
    rcases List.mem_append.mp hm with hm | hm
    · exact hinv.live w (List.mem_append_right _ hw) hm
    · exact hloan w hw hm

theorem C14_close_stops_idle_once_witness :
    Reachable sysOneOnLoan ∧ sysOneOnLoan.store.cap ≠ noLimitCap ∧
    ∃ rt1, sysOneOnLoan.store.close sysOneOnLoan.rt = Except.ok
        ({ sysOneOnLoan.store with workers := [], runningCount := 0 }, rt1) ∧
      rt1.closedCh = sysOneOnLoan.rt.closedCh ++ sysOneOnLoan.store.workers.map goWorker.id :=
  match C14_close_stops_idle_once sysOneOnLoan sysOneOnLoan_reachable with
  | ⟨rt1, h1, h2, _⟩ => ⟨sysOneOnLoan_reachable, by decide, rt1, h1, h2⟩

/-- C15: for every bounded store whose pool is closed and every worker `w`,
`putWorker(w)` does nothing but `w.stop()`: the store, with its idle workers and its
running count, comes back unchanged, and `w` is not appended; when the task channel of
`w` is still open the call returns with that channel closed. -/
theorem C15_putWorker_closed_frame (store : capacityStore) (state : Int) (w : goWorker)
    (rt : Runtime) (hb : store.cap ≠ noLimitCap) (hcl : state = PoolClose) :
    store.putWorker state w rt = (w.stop rt).map (fun rt1 => (store, rt1)) ∧
    (w.id ∉ rt.closedCh →
      store.putWorker state w rt
        = Except.ok (store, { rt with closedCh := rt.closedCh ++ [w.id] })) ∧
    (∀ store1 rt1, store.putWorker state w rt = Except.ok (store1, rt1) →
      store1 = store ∧ w.id ∈ rt1.closedCh) := by
  subst hcl
  have hput := putWorker_closed_bounded store w rt hb
  refine ⟨hput, ?_, ?_⟩
  · intro hlive
    rw [hput]
    simp [goWorker.stop, hlive, Except.map, pure, Except.pure]
  · intro store1 rt1 hok
    rw [hput] at hok
    unfold goWorker.stop at hok
    by_cases hm : w.id ∈ rt.closedCh
    · simp [hm, Except.map, throw, throwThe, MonadExceptOf.throw] at hok
    · simp only [hm, if_false, Except.map, pure, Except.pure, Except.ok.injEq,
        Prod.mk.injEq] at hok
      refine ⟨hok.1.symm, ?_⟩
      rw [← hok.2]
      simp

theorem C15_putWorker_closed_frame_witness :
    storeCap2.cap ≠ noLimitCap ∧
    storeCap2.putWorker PoolClose ⟨5⟩ rtEmpty
      = Except.ok (storeCap2, { nextWorker := 0, closedCh := [5] }) :=
  ⟨by decide,
    (C15_putWorker_closed_frame storeCap2 PoolClose ⟨5⟩ rtEmpty (by decide) rfl).2.1
      (by decide)⟩

/-- C16: in every reachable state of an open bounded store with fewer idle workers than
the capacity and a running count of at least 1, and for every worker `w`,
`putWorker(w)` followed by `getWorker` returns `w` itself and brings the store, with its
idle workers and its running count, back to what it was before the `putWorker`. -/
theorem C16_put_then_get_returns_same (s : Sys) (h : Reachable s)
    (hopen : s.state = PoolOpen) (hb : s.store.cap ≠ noLimitCap)
    (hlen : (s.store.workers.length : Int) < s.store.cap)
    (hrc : 1 ≤ s.store.runningCount) (w : goWorker) :
    ∃ store1, s.store.putWorker s.state w s.rt = Except.ok (store1, s.rt) ∧
      store1.workers = s.store.workers ++ [w] ∧
      store1.runningCount = s.store.runningCount - 1 ∧
      store1.getWorker s.state s.rt = Except.ok (Acquired.worker w, s.store, s.rt) := by
  have hinv := h.inv
  have hle : s.store.runningCount ≤ s.store.cap := by
    have := hinv.sum_le hb
    omega
  obtain ⟨hput, hget⟩ :=
    putWorker_getWorker_roundtrip s.store w s.rt hinv.cap_int32 hb hlen hrc hle
  rw [hopen]
  exact ⟨_, hput, rfl, rfl, hget⟩

theorem C16_put_then_get_returns_same_witness :
    Reachable sysOneOnLoan ∧ sysOneOnLoan.state = PoolOpen ∧
    sysOneOnLoan.store.cap ≠ noLimitCap ∧
    (sysOneOnLoan.store.workers.length : Int) < sysOneOnLoan.store.cap ∧
    1 ≤ sysOneOnLoan.store.runningCount ∧
    ∃ store1, sysOneOnLoan.store.putWorker sysOneOnLoan.state ⟨1⟩ sysOneOnLoan.rt
        = Except.ok (store1, sysOneOnLoan.rt) ∧
      store1.getWorker sysOneOnLoan.state sysOneOnLoan.rt
        = Except.ok (Acquired.worker ⟨1⟩, sysOneOnLoan.store, sysOneOnLoan.rt) :=
  match C16_put_then_get_returns_same sysOneOnLoan sysOneOnLoan_reachable rfl (by decide)
      (by decide) (by decide) ⟨1⟩ with
  | ⟨store1, h1, _, _, h4⟩ =>
    ⟨sysOneOnLoan_reachable, rfl, by decide, by decide, by decide, store1, h1, h4⟩

/-- C17: in every reachable state no idle worker and no worker on loan has been told to
stop; hence a worker that `getWorker` returns has an open task channel, `submitTask`
to an idle worker or to one on loan does not panic, and `RunTask` does not panic. -/
theorem C17_no_stopped_worker_reused (s : Sys) (h : Reachable s) :
    (∀ w ∈ s.store.workers, w.id ∉ s.rt.closedCh) ∧
    (∀ w ∈ s.loan, w.id ∉ s.rt.closedCh) ∧
    (∀ w store1 rt1,
      s.store.getWorker s.state s.rt = Except.ok (Acquired.worker w, store1, rt1) →
        w.id ∉ rt1.closedCh ∧ w.submitTask rt1 = Except.ok ()) ∧
    (∀ w ∈ s.store.workers ++ s.loan, w.submitTask s.rt = Except.ok ()) ∧
    (∀ (τ : Type) (f : τ), ∃ r, s.pool.RunTask f s.rt = Except.ok r) := by
  have hinv := h.inv
  have hsub : ∀ (w : goWorker) (rt : Runtime), w.id ∉ rt.closedCh →
      w.submitTask rt = Except.ok () := by
    intro w rt hw
    simp [goWorker.submitTask, hw, pure, Except.pure]
  refine ⟨fun w hw => hinv.live w (List.mem_append_left _ hw),
    fun w hw => hinv.live w (List.mem_append_right _ hw), ?_, ?_, ?_⟩
  · intro w store1 rt1 hg
    have hl := getWorker_worker_live s hinv w store1 rt1 hg
    exact ⟨hl, hsub w rt1 hl⟩
  · intro w hw
    exact hsub w s.rt (hinv.live w hw)
  · intro τ f
    unfold goPool.RunTask
    by_cases hcl : s.pool.IsClosed = true
    · simp only [hcl, if_true, pure, Except.pure]
      exact ⟨_, rfl⟩
    · simp only [hcl, Bool.false_eq_true, if_false]
      obtain ⟨s1, hs1⟩ := Inv_step_ok s hinv Event.getWorker rfl
      unfold Sys.step at hs1
      simp only [bind, Except.bind] at hs1
      cases hg : s.store.getWorker s.state s.rt with
      | error x => rw [hg] at hs1; simp at hs1
      | ok r =>
        obtain ⟨a, store1, rt1⟩ := r
        unfold goPool.RunTask_acquire
        simp only [Sys.pool, hg, bind, Except.bind]
        cases a with
        | wait => exact ⟨_, rfl⟩
        | nil => exact ⟨_, rfl⟩
        | worker w =>
          have hl := getWorker_worker_live s hinv w store1 rt1 hg
          simp only [hsub w rt1 hl]
          exact ⟨_, rfl⟩

theorem C17_no_stopped_worker_reused_witness :
    Reachable sysMidClose ∧ sysMidClose.rt.closedCh = [1] ∧
    sysMidClose.store.workers = [goWorker.mk 0] ∧
    (∀ w ∈ sysMidClose.store.workers, w.id ∉ sysMidClose.rt.closedCh) ∧
    (∀ w ∈ sysMidClose.store.workers ++ sysMidClose.loan,
      w.submitTask sysMidClose.rt = Except.ok ()) :=
  ⟨sysMidClose_reachable, rfl, rfl,
    (C17_no_stopped_worker_reused sysMidClose sysMidClose_reachable).1,
    (C17_no_stopped_worker_reused sysMidClose sysMidClose_reachable).2.2.2.1⟩

/-- C18: `newWorkerStore` of a bounded store yields as many idle workers as the capacity
and a running count of 0; in every reachable state of an open bounded store
`runningCount + len(workers) = cap`, so the idle slice is not empty when
`runningCount < cap`; and in every reachable state of a bounded store `getWorker`
returns, without the index of `workers[len(workers)-1]` being out of range. -/
theorem C18_open_sum_exact (s : Sys) (h : Reachable s) (hb : s.store.cap ≠ noLimitCap) :
    (∀ (c : Int) (b : Bool) (rt0 : Runtime) (s0 : Sys), c ≠ noLimitCap →
      Sys.init c b rt0 = Except.ok s0 →
        (s0.store.workers.length : Int) = c ∧ s0.store.runningCount = 0 ∧
        s0.store.cap = c) ∧
    (s.state = PoolOpen →
      s.store.runningCount + s.store.workers.length = s.store.cap ∧
      (s.store.runningCount < s.store.cap → s.store.workers ≠ [])) ∧
    (∃ r, s.store.getWorker s.state s.rt = Except.ok r) ∧
    s.store.getWorker s.state s.rt ≠ Except.error GoPanic.indexOutOfRange := by
  have hinv := h.inv
  have hret : ∃ r, s.store.getWorker s.state s.rt = Except.ok r := by
    obtain ⟨s1, hs1⟩ := Inv_step_ok s hinv Event.getWorker rfl
    unfold Sys.step at hs1
    simp only [bind, Except.bind] at hs1
    cases hg : s.store.getWorker s.state s.rt with
    | error x => rw [hg] at hs1; simp at hs1
    | ok r => exact ⟨r, rfl⟩
  refine ⟨?_, ?_, hret, ?_⟩
  · intro c b rt0 s0 hc hinit
    unfold Sys.init newWorkerStore at hinit
    by_cases hneg : c < 0
    · simp [hc, hneg, bind, Except.bind, throw, throwThe, MonadExceptOf.throw] at hinit
    · simp only [ne_eq, hc, not_false_eq_true, if_true, hneg, if_false, bind, Except.bind,
        pure, Except.pure, Except.ok.injEq] at hinit
      subst hinit
      refine ⟨?_, rfl, rfl⟩
      simp only [fillWorkers_length]
      omega
  · intro hopen
    have hsum := hinv.open_sum hb hopen
    refine ⟨hsum, ?_⟩
    intro hlt hnil
    rw [hnil] at hsum
    simp at hsum
    omega
  · obtain ⟨r, hr⟩ := hret
    rw [hr]
    simp

theorem C18_open_sum_exact_witness :
    Reachable sysOneOnLoan ∧ sysOneOnLoan.store.cap ≠ noLimitCap ∧
    (sysOneOnLoan.state = PoolOpen →
      sysOneOnLoan.store.runningCount + sysOneOnLoan.store.workers.length
          = sysOneOnLoan.store.cap ∧
      (sysOneOnLoan.store.runningCount < sysOneOnLoan.store.cap →
        sysOneOnLoan.store.workers ≠ [])) :=
  ⟨sysOneOnLoan_reachable, by decide,
    (C18_open_sum_exact sysOneOnLoan sysOneOnLoan_reachable (by decide)).2.1⟩

/-- C19: in every reachable state each task channel has been closed at most once, that
is, `stop()` has been invoked at most once on any worker; and every enabled step
(`getWorker`, `putWorker` of a worker on loan, fault replacement, the two steps of
`Close`) returns without a panic, in particular without `close` of a closed channel,
and leads to a state in which this still holds. -/
theorem C19_stop_at_most_once (s : Sys) (h : Reachable s) :
    (∀ i, s.rt.closedCh.count i ≤ 1) ∧
    (∀ e, s.enabled e = true →
      s.step e ≠ Except.error GoPanic.closeOfClosedChannel ∧
      ∃ s1, s.step e = Except.ok s1 ∧ ∀ i, s1.rt.closedCh.count i ≤ 1) := by
  refine ⟨fun i => List.nodup_iff_count_le_one.mp h.inv.rt_nodup i, ?_⟩
  intro e hen
  obtain ⟨s1, hs1⟩ := Inv_step_ok s h.inv e hen
  refine ⟨?_, s1, hs1, ?_⟩
  · rw [hs1]
    simp
  · intro i
    have hinv1 := Inv_step s s1 e h.inv hen hs1
    exact List.nodup_iff_count_le_one.mp hinv1.rt_nodup i

theorem C19_stop_at_most_once_witness :
    Reachable sysClosedAll ∧ sysClosedAll.rt.closedCh = [0, 1] ∧
    (∀ i, sysClosedAll.rt.closedCh.count i ≤ 1) :=
  ⟨sysClosedAll_reachable, rfl,
    (C19_stop_at_most_once sysClosedAll sysClosedAll_reachable).1⟩

/-- C11: on the blocking pool of capacity 1 whose worker is on loan, a second caller of
`getWorker` finds the store full and releases the lock; when the task of the first
caller returns before the second caller has reached `<-store.waitCh`, the `select` of
`decrRunningCount` finds no receiver and drops the signal, and the second caller then
blocks on `waitCh` although the pool is open, the worker is idle and
`runningCount < cap`; from there only a new call of `getWorker` or a `Close` can take
a step, and neither wakes the blocked caller. In the other order, where the caller
blocks before the task returns, it is woken and gets the worker. -/
theorem C11_lost_wakeup :
    Sys.init 1 true rtEmpty = Except.ok concStart.sys ∧
    concStart.run [CEvent.call, CEvent.tryGet, CEvent.call, CEvent.tryGet]
      = some (Except.ok
          { sys := { state := PoolOpen,
                     store := { cap := 1, runningCount := 1, isBlock := true, workers := [] },
                     rt := { nextWorker := 1, closedCh := [] },
                     loan := [goWorker.mk 0],
                     closing := false },
            ready := 0, unlocked := 1, parked := 0 }) ∧
    concStart.run [CEvent.call, CEvent.tryGet, CEvent.call, CEvent.tryGet,
        CEvent.putWorker ⟨0⟩, CEvent.recv]
      = some (Except.ok concStuck) ∧
    concStuck.parked = 1 ∧ concStuck.sys.state = PoolOpen ∧
    concStuck.sys.store.runningCount < concStuck.sys.store.cap ∧
    concStuck.sys.store.workers = [goWorker.mk 0] ∧
    (∀ e, concStuck.enabled e = true → e = CEvent.call ∨ e = CEvent.closeCAS) ∧
    (∀ e c1, concStuck.enabled e = true → concStuck.step e = Except.ok c1 →
      c1.parked = 1) ∧
    concStart.run [CEvent.call, CEvent.tryGet, CEvent.call, CEvent.tryGet,
        CEvent.recv, CEvent.putWorker ⟨0⟩, CEvent.tryGet]
      = some (Except.ok concServed) := by
  refine ⟨rfl, rfl, rfl, rfl, rfl, by decide, rfl, ?_, ?_, rfl⟩
  · intro e he
    cases e with
    | call => exact Or.inl rfl
    | closeCAS => exact Or.inr rfl
    | tryGet => simp [Conc.enabled, concStuck] at he
    | recv => simp [Conc.enabled, concStuck] at he
    | putWorker w => simp [Conc.enabled, concStuck] at he
    | fault w => simp [Conc.enabled, concStuck] at he
    | storeClose => simp [Conc.enabled, concStuck] at he
  · intro e c1 he hs
    cases e with
    | call =>
      simp only [Conc.step, pure, Except.pure, Except.ok.injEq] at hs
      rw [← hs]
      rfl
    | closeCAS =>
      have hs1 : concStuck.step CEvent.closeCAS = Except.ok
          { concStuck with sys := { concStuck.sys with state := PoolClose, closing := true } } :=
        rfl
      rw [hs1] at hs
      simp only [Except.ok.injEq] at hs
      rw [← hs]
      rfl
    | tryGet => simp [Conc.enabled, concStuck] at he
    | recv => simp [Conc.enabled, concStuck] at he
    | putWorker w => simp [Conc.enabled, concStuck] at he
    | fault w => simp [Conc.enabled, concStuck] at he
    | storeClose => simp [Conc.enabled, concStuck] at he

end goroutine_pool
